import Mathlib

/-!
Verification of the verkada-openapi-archive pipeline.

The repository consists of two Python files, `main.py` and
`reorder_openapi.py`, sharing one transform function
`reorder_openapi_paths`.  This development shallowly embeds:

* the JSON documents the scripts manipulate (`Json`, an ordered-key
  mapping model: Python dicts preserve insertion order, so objects are
  association lists with the dict no-duplicate-keys invariant expressed
  separately by `wellFormed`);
* the pure document transform performed by `reorder_openapi_paths`
  (`transformDoc` and its named sub-steps, mirroring the numbered steps
  in the source);
* the serializations produced by `json.dump` / `json.dumps` with the
  option combinations the scripts use (`dumpsVal`; Python's
  `sort_keys=True` is modelled by serializing the recursively key-sorted
  document `sortKeysRec`, since the encoder emits each object's items in
  sorted key order);
* the orchestration in `main` (`mainRun`) together with the
  change-detection helper `git_diff`, with the external collaborators
  (network, filesystem, git) abstracted as an environment record.

Where the Python source would raise an uncaught exception on a shape the
OpenAPI data model rules out (for example a non-mapping value where a
path item is required, or a string where a scheme object is required),
the embedding leaves the value unchanged; every claim below quantifies
only over shapes on which the source runs without raising.
-/

set_option maxHeartbeats 1000000

/-- JSON values.  Objects are ordered association lists, mirroring the
insertion-ordered Python `dict` produced by `json.load`.  Numbers are
modelled as integers: the transform never inspects numbers, and every
number in the claims' scope is integral. -/
inductive Json where
  | null : Json
  | bool : Bool → Json
  | num : Int → Json
  | str : String → Json
  | arr : List Json → Json
  | obj : List (String × Json) → Json

mutual
/-- Boolean equality on `Json` (structural). -/
def jeq : Json → Json → Bool
  | Json.null, Json.null => true
  | Json.bool a, Json.bool b => a == b
  | Json.num a, Json.num b => a == b
  | Json.str a, Json.str b => a == b
  | Json.arr a, Json.arr b => jeqElems a b
  | Json.obj a, Json.obj b => jeqMembers a b
  | _, _ => false
termination_by structural a => a

/-- Boolean equality on JSON array contents. -/
def jeqElems : List Json → List Json → Bool
  | [], [] => true
  | x :: xs, y :: ys => jeq x y && jeqElems xs ys
  | _, _ => false
termination_by structural l => l

/-- Boolean equality on JSON object contents. -/
def jeqMembers : List (String × Json) → List (String × Json) → Bool
  | [], [] => true
  | kv :: xs, kv2 :: ys => kv.1 == kv2.1 && jeq kv.2 kv2.2 && jeqMembers xs ys
  | _, _ => false
termination_by structural l => l
end

/-- Membership-based induction principle for the nested inductive `Json`. -/
theorem Json.recOnMem {P : Json → Prop}
    (hnull : P Json.null) (hbool : ∀ b, P (Json.bool b)) (hnum : ∀ n, P (Json.num n))
    (hstr : ∀ s, P (Json.str s))
    (harr : ∀ l, (∀ x, x ∈ l → P x) → P (Json.arr l))
    (hobj : ∀ kvs, (∀ kv, kv ∈ kvs → P kv.2) → P (Json.obj kvs)) :
    ∀ j, P j := by
  have key : ∀ n (j : Json), sizeOf j ≤ n → P j := by
    intro n
    induction n with
    | zero => intro j hj; cases j <;> simp_all
    | succ n ih =>
      intro j hj
      cases j with
      | null => exact hnull
      | bool b => exact hbool b
      | num m => exact hnum m
      | str s => exact hstr s
      | arr l =>
        refine harr l (fun x hx => ih x ?_)
        have h1 := List.sizeOf_lt_of_mem hx
        simp only [Json.arr.sizeOf_spec] at hj
        omega
      | obj kvs =>
        refine hobj kvs (fun kv hkv => ih kv.2 ?_)
        have h1 := List.sizeOf_lt_of_mem hkv
        have h2 : sizeOf kv.2 < sizeOf kv := by
          obtain ⟨a, b⟩ := kv
          simp
        simp only [Json.obj.sizeOf_spec] at hj
        omega
  exact fun j => key (sizeOf j) j le_rfl

/-- `jeq` decides propositional equality. -/
theorem jeq_iff : ∀ a b : Json, jeq a b = true ↔ a = b := by
  intro a
  induction a using Json.recOnMem with
  | hnull => intro b; cases b <;> simp [jeq]
  | hbool x => intro b; cases b <;> simp [jeq]
  | hnum x => intro b; cases b <;> simp [jeq]
  | hstr x => intro b; cases b <;> simp [jeq]
  | harr l ihl =>
    intro b
    cases b <;> simp [jeq]
    case arr m =>
      induction l generalizing m with
      | nil => cases m <;> simp [jeqElems]
      | cons x xs ih =>
        cases m with
        | nil => simp [jeqElems]
        | cons y ys =>
          simp [jeqElems, ihl x (by simp)]
          intro _
          exact ih (fun z hz => ihl z (by simp [hz])) ys
  | hobj kvs ihk =>
    intro b
    cases b <;> simp [jeq]
    case obj m =>
      induction kvs generalizing m with
      | nil => cases m <;> simp [jeqMembers]
      | cons x xs ih =>
        cases m with
        | nil => simp [jeqMembers]
        | cons y ys =>
          simp [jeqMembers, ihk x (by simp), Prod.ext_iff]
          intro _ _
          exact ih (fun z hz => ihk z (by simp [hz])) ys

instance : DecidableEq Json := fun a b => decidable_of_iff (jeq a b = true) (jeq_iff a b)

/-- Python `d[k] = v` on a dict: replaces the value at an existing key
in place (keeping the key's position), otherwise appends the new key at
the end of the iteration order. -/
def setKey (l : List (String × Json)) (k : String) (v : Json) : List (String × Json) :=
  match l with
  | [] => [(k, v)]
  | (k2, v2) :: rest => if k2 = k then (k, v) :: rest else (k2, v2) :: setKey rest k v

/-- Python `del d[k]` / `d.pop(k)` on a dict: removes the entry for `k`
(the first occurrence; a dict has at most one). -/
def delKey (l : List (String × Json)) (k : String) : List (String × Json) :=
  match l with
  | [] => []
  | (k2, v2) :: rest => if k2 = k then rest else (k2, v2) :: delKey rest k

/-- Key list has no duplicates. -/
def nodupKeys : List String → Bool
  | [] => true
  | k :: ks => !(ks.contains k) && nodupKeys ks

mutual
/-- Dict well-formedness of a parsed document: every object in the tree
has pairwise-distinct keys.  Guaranteed for anything produced by
Python's `json.load`. -/
def wellFormed : Json → Bool
  | Json.obj kvs => nodupKeys (kvs.map Prod.fst) && wfMembers kvs
  | Json.arr l => wfElems l
  | _ => true
termination_by structural j => j

/-- All member values of an object are well-formed. -/
def wfMembers : List (String × Json) → Bool
  | [] => true
  | kv :: rest => wellFormed kv.2 && wfMembers rest
termination_by structural l => l

/-- All elements of an array are well-formed. -/
def wfElems : List Json → Bool
  | [] => true
  | x :: xs => wellFormed x && wfElems xs
termination_by structural l => l
end

/-! ### The document transform (`reorder_openapi_paths`, minus file I/O)

`main.py` lines 200-260 and `reorder_openapi.py` lines 3-63 contain the
same function; the definitions below embed its pure document rewriting.
-/

/-- Step 1 (`main.py` 205-219): build a new `paths` dict with the
`/token` entry first (when present) and every other entry in original
order.  When `/token` is absent the rebuilt dict equals the original. -/
def reorderPaths (ps : List (String × Json)) : List (String × Json) :=
  match List.lookup "/token" ps with
  | some v => ("/token", v) :: ps.filter (fun kv => !(kv.1 == "/token"))
  | none => ps

/-- The `if 'paths' in data:` wrapper around step 1.  A present but
non-mapping `paths` value makes the source raise before rewriting
anything, so it is left unchanged here. -/
def reorderStep (root : List (String × Json)) : List (String × Json) :=
  match List.lookup "paths" root with
  | some (Json.obj ps) => setKey root "paths" (Json.obj (reorderPaths ps))
  | _ => root

/-- Step 2.1 (`main.py` 227-228): copy `GetToken.description` onto
`ApiKey.description` when `ApiKey` exists and `GetToken` has a
description.  The overwrite is unconditional (no check of any existing
`ApiKey` description). -/
def descrStep (schemes : List (String × Json)) : List (String × Json) :=
  match List.lookup "ApiKey" schemes, List.lookup "GetToken" schemes with
  | some (Json.obj apiKvs), some (Json.obj gtKvs) =>
    match List.lookup "description" gtKvs with
    | some desc => setKey schemes "ApiKey" (Json.obj (setKey apiKvs "description" desc))
    | none => schemes
  | _, _ => schemes

/-- Step 2.3 (`main.py` 241-243): `scheme['ApiKey'] = scheme.pop('GetToken')`
on one entry of an operation's `security` list. -/
def renameSecurityEntry : Json → Json
  | Json.obj kvs =>
    match List.lookup "GetToken" kvs with
    | some scopes => Json.obj (setKey (delKey kvs "GetToken") "ApiKey" scopes)
    | none => Json.obj kvs
  | v => v

/-- Steps 2.3-2.4 (`main.py` 239-247): rewrite the entries of an
existing `security` list, or inject `[{"ApiToken": []}]` when the
operation has no `security` key at all.  An existing non-list `security`
value is traversed by the source without being reassigned (a dict or
string with no `GetToken`-containing member), so it stays unchanged. -/
def secStep (details : List (String × Json)) : List (String × Json) :=
  match List.lookup "security" details with
  | some (Json.arr entries) => setKey details "security" (Json.arr (entries.map renameSecurityEntry))
  | some _ => details
  | none => setKey details "security" (Json.arr [Json.obj [("ApiToken", Json.arr [])]])

/-- Step 2.5 tag rename: `'Deny List' if tag == 'DenyList' else tag`. -/
def renameTag (t : Json) : Json :=
  if t = Json.str "DenyList" then Json.str "Deny List" else t

/-- Step 2.5 (`main.py` 250-251): rebuild an existing `tags` value with
the `DenyList` rename.  Python iterates whatever `tags` holds: a list
elementwise, a string by characters, a dict by keys. -/
def tagsStep (details : List (String × Json)) : List (String × Json) :=
  match List.lookup "tags" details with
  | some (Json.arr tags) => setKey details "tags" (Json.arr (tags.map renameTag))
  | some (Json.str s) =>
      setKey details "tags" (Json.arr (s.toList.map (fun c => renameTag (Json.str c.toString))))
  | some (Json.obj kvs) =>
      setKey details "tags" (Json.arr (kvs.map (fun kv => renameTag (Json.str kv.1))))
  | _ => details

/-- Steps 2.3-2.5 on one operation object's fields. -/
def opFields (details : List (String × Json)) : List (String × Json) :=
  tagsStep (secStep details)

/-- One value under a path and method: the `isinstance(details, dict)`
guard at `main.py` 238 skips anything that is not a mapping. -/
def opRewrite : Json → Json
  | Json.obj details => Json.obj (opFields details)
  | v => v

/-- One path item: iterate its method/value members.  The source calls
`.items()` on it, raising on a non-mapping, which the claims' well-formed
inputs exclude. -/
def pathItemRewrite : Json → Json
  | Json.obj methods => Json.obj (methods.map (fun kv => (kv.1, opRewrite kv.2)))
  | v => v

/-- The whole `paths` traversal of steps 2.3-2.5. -/
def opsRewrite : Json → Json
  | Json.obj pathEntries => Json.obj (pathEntries.map (fun kv => (kv.1, pathItemRewrite kv.2)))
  | v => v

/-- Step 2 (`main.py` 221-251): scheme consolidation plus the per-operation
rewrites, which run only when `components.securitySchemes` exists and
contains a `GetToken` scheme. -/
def schemeStep (root : List (String × Json)) : List (String × Json) :=
  match List.lookup "components" root with
  | some (Json.obj comps) =>
    match List.lookup "securitySchemes" comps with
    | some (Json.obj schemes) =>
      if (List.lookup "GetToken" schemes).isSome then
        let schemes2 := delKey (descrStep schemes) "GetToken"
        let root2 := setKey root "components"
          (Json.obj (setKey comps "securitySchemes" (Json.obj schemes2)))
        match List.lookup "paths" root2 with
        | some pv => setKey root2 "paths" (opsRewrite pv)
        | none => root2
      else root
    | _ => root
  | _ => root

/-- The pure document rewriting of `reorder_openapi_paths`: step 1
followed by step 2 (the function's two serializations are modelled
separately by `transformedPrettyText` / `transformedCompactText`). -/
def transformDoc : Json → Json
  | Json.obj root => Json.obj (schemeStep (reorderStep root))
  | j => j

/-! ### Read-only accessors used to state properties -/

/-- Root-level field of a document. -/
def rootField (d : Json) (k : String) : Option Json :=
  match d with
  | Json.obj root => List.lookup k root
  | _ => none

/-- `components.securitySchemes` as an association list, when the whole
chain exists with mapping shape. -/
def getSchemes (d : Json) : Option (List (String × Json)) :=
  match rootField d "components" with
  | some (Json.obj comps) =>
    match List.lookup "securitySchemes" comps with
    | some (Json.obj schemes) => some schemes
    | _ => none
  | _ => none

/-- One named security scheme definition. -/
def getSchemeDef (d : Json) (name : String) : Option Json :=
  (getSchemes d).bind (fun schemes => List.lookup name schemes)

/-- One field of one named security scheme. -/
def getSchemeField (d : Json) (name fld : String) : Option Json :=
  match getSchemeDef d name with
  | some (Json.obj kvs) => List.lookup fld kvs
  | _ => none

/-- The `paths` mapping, when present with mapping shape. -/
def getPaths (d : Json) : Option (List (String × Json)) :=
  match rootField d "paths" with
  | some (Json.obj ps) => some ps
  | _ => none

/-- The key sequence of the `paths` mapping. -/
def getPathsKeys (d : Json) : Option (List String) :=
  (getPaths d).map (fun ps => ps.map Prod.fst)

/-- One path item. -/
def getPathItem (d : Json) (p : String) : Option Json :=
  (getPaths d).bind (fun ps => List.lookup p ps)

/-- The value under path `p` and method key `m` (an operation object when
it is a mapping). -/
def getOperation (d : Json) (p m : String) : Option Json :=
  match getPathItem d p with
  | some (Json.obj methods) => List.lookup m methods
  | _ => none

/-- One field of an operation object. -/
def getOpField (d : Json) (p m k : String) : Option Json :=
  match getOperation d p m with
  | some (Json.obj details) => List.lookup k details
  | _ => none

/-- Whether the step-2 rewrites fire: `components.securitySchemes`
exists and contains `GetToken`. -/
def getTokenPresent (d : Json) : Bool :=
  match getSchemes d with
  | some schemes => (List.lookup "GetToken" schemes).isSome
  | none => false

/-- One member of the `components` mapping. -/
def getComponentField (d : Json) (k : String) : Option Json :=
  match rootField d "components" with
  | some (Json.obj comps) => List.lookup k comps
  | _ => none

/-! ### Serialization (`json.dump` / `json.dumps`)

The scripts use three option combinations:
* `main.py` 289: `indent=4, sort_keys=True, ensure_ascii=False` (raw);
* `main.py` 254-255: `indent=2` (transformed pretty, `ensure_ascii`
  defaulting to `True`, keys in insertion order);
* `main.py` 257-258: no options (transformed compact, separators
  defaulting to `", "` and `": "`, keys in insertion order).
-/

/-- Lowercase hexadecimal digit. -/
def hexDigit (n : Nat) : Char :=
  if n < 10 then Char.ofNat (48 + n) else Char.ofNat (87 + n)

/-- Four-digit lowercase hexadecimal, as in Python's `\uXXXX` escapes. -/
def hex4 (n : Nat) : String :=
  String.mk [hexDigit (n / 4096 % 16), hexDigit (n / 256 % 16), hexDigit (n / 16 % 16), hexDigit (n % 16)]

/-- Python `json` string escaping for one character.  With
`ensure_ascii` everything outside `0x20`-`0x7e` is escaped (surrogate
pairs above `0xffff`); without it only `"`, backslash and control
characters are. -/
def escapeChar (ea : Bool) (c : Char) : String :=
  if c = '"' then "\\\""
  else if c = '\\' then "\\\\"
  else if c.toNat = 8 then "\\b"
  else if c.toNat = 12 then "\\f"
  else if c = '\n' then "\\n"
  else if c.toNat = 13 then "\\r"
  else if c = '\t' then "\\t"
  else if c.toNat < 32 then "\\u" ++ hex4 c.toNat
  else if ea && c.toNat ≥ 127 then
    if c.toNat < 65536 then "\\u" ++ hex4 c.toNat
    else "\\u" ++ hex4 (55296 + (c.toNat - 65536) / 1024) ++ "\\u" ++ hex4 (56320 + (c.toNat - 65536) % 1024)
  else c.toString

/-- A JSON string literal. -/
def encodeString (ea : Bool) (s : String) : String :=
  "\"" ++ String.join (s.toList.map (escapeChar ea)) ++ "\""

/-- Join rendered items with a separator. -/
def joinSep (sep : String) : List String → String
  | [] => ""
  | [x] => x
  | x :: y :: ys => x ++ sep ++ joinSep sep (y :: ys)

/-- `n` spaces. -/
def pad (n : Nat) : String :=
  String.mk (List.replicate n ' ')

mutual
/-- Python `json.dumps` of one value: `ea` is `ensure_ascii`, `ind` the
`indent` option (`none` means the compact default separators
`", "` / `": "`), `level` the current nesting depth.  Keys are emitted
in insertion order; `sort_keys=True` is modelled by pre-sorting with
`sortKeysRec`. -/
def dumpsVal (ea : Bool) (ind : Option Nat) (level : Nat) : Json → String
  | Json.null => "null"
  | Json.bool b => if b then "true" else "false"
  | Json.num n => toString n
  | Json.str s => encodeString ea s
  | Json.arr [] => "[]"
  | Json.arr (x :: xs) =>
    match ind with
    | none => "[" ++ joinSep ", " (dumpsElems ea none (level + 1) (x :: xs)) ++ "]"
    | some w =>
      "[\n" ++ pad ((level + 1) * w) ++
        joinSep (",\n" ++ pad ((level + 1) * w)) (dumpsElems ea (some w) (level + 1) (x :: xs)) ++
        "\n" ++ pad (level * w) ++ "]"
  | Json.obj [] => "\x7b\x7d"
  | Json.obj (kv :: kvs) =>
    match ind with
    | none => "\x7b" ++ joinSep ", " (dumpsMembers ea none (level + 1) (kv :: kvs)) ++ "\x7d"
    | some w =>
      "\x7b\n" ++ pad ((level + 1) * w) ++
        joinSep (",\n" ++ pad ((level + 1) * w)) (dumpsMembers ea (some w) (level + 1) (kv :: kvs)) ++
        "\n" ++ pad (level * w) ++ "\x7d"
termination_by structural j => j

/-- Rendered elements of an array. -/
def dumpsElems (ea : Bool) (ind : Option Nat) (level : Nat) : List Json → List String
  | [] => []
  | x :: xs => dumpsVal ea ind level x :: dumpsElems ea ind level xs
termination_by structural l => l

/-- Rendered `"key": value` items of an object. -/
def dumpsMembers (ea : Bool) (ind : Option Nat) (level : Nat) : List (String × Json) → List String
  | [] => []
  | kv :: rest => (encodeString ea kv.1 ++ ": " ++ dumpsVal ea ind level kv.2) :: dumpsMembers ea ind level rest
termination_by structural l => l
end

/-- Lexicographic comparison of character lists by code point, the order
Python's `str` comparison uses. -/
def charListLe : List Char → List Char → Bool
  | [], _ => true
  | _ :: _, [] => false
  | a :: as, b :: bs =>
    if a.toNat < b.toNat then true
    else if b.toNat < a.toNat then false
    else charListLe as bs

/-- Python's `str` order (code-point lexicographic `≤`). -/
def strLe (a b : String) : Bool :=
  charListLe a.data b.data

/-- Insertion sort of an object's members by key, as Python's
`sort_keys=True` does at each mapping level (`List.orderedInsert` places
an entry before the first entry with a `≥` key, so equal keys keep their
first-seen order, matching Python's stable `sorted`). -/
def insertionSortByKey (l : List (String × Json)) : List (String × Json) :=
  l.insertionSort (fun a b => strLe a.1 b.1 = true)

mutual
/-- Recursively sort every object's members by key.  Serializing
`sortKeysRec d` without sorting is exactly serializing `d` with
`sort_keys=True`. -/
def sortKeysRec : Json → Json
  | Json.obj kvs => Json.obj (insertionSortByKey (sortMembersRec kvs))
  | Json.arr l => Json.arr (sortElemsRec l)
  | j => j
termination_by structural j => j

/-- `sortKeysRec` mapped over object members. -/
def sortMembersRec : List (String × Json) → List (String × Json)
  | [] => []
  | kv :: rest => (kv.1, sortKeysRec kv.2) :: sortMembersRec rest
termination_by structural l => l

/-- `sortKeysRec` mapped over array elements. -/
def sortElemsRec : List Json → List Json
  | [] => []
  | x :: xs => sortKeysRec x :: sortElemsRec xs
termination_by structural l => l
end

/-- Adjacent keys are in non-decreasing `strLe` order. -/
def keysChain : List String → Bool
  | [] => true
  | [_] => true
  | x :: y :: ys => strLe x y && keysChain (y :: ys)

mutual
/-- Every object in the tree lists its keys in sorted order. -/
def keysSorted : Json → Bool
  | Json.obj kvs => keysChain (kvs.map Prod.fst) && keysSortedMembers kvs
  | Json.arr l => keysSortedElems l
  | _ => true
termination_by structural j => j

/-- `keysSorted` over object member values. -/
def keysSortedMembers : List (String × Json) → Bool
  | [] => true
  | kv :: rest => keysSorted kv.2 && keysSortedMembers rest
termination_by structural l => l

/-- `keysSorted` over array elements. -/
def keysSortedElems : List Json → Bool
  | [] => true
  | x :: xs => keysSorted x && keysSortedElems xs
termination_by structural l => l
end

/-- The raw snapshot text: `json.dumps(data, indent=4, sort_keys=True,
ensure_ascii=False)` (`main.py` 289). -/
def rawPrettyText (d : Json) : String :=
  dumpsVal false (some 4) 0 (sortKeysRec d)

/-- The transformed pretty file: `json.dump(data, f, indent=2)`
(`main.py` 254-255) applied to the transformed document. -/
def transformedPrettyText (d : Json) : String :=
  dumpsVal true (some 2) 0 (transformDoc d)

/-- The transformed compact file: `json.dump(data, f)` (`main.py`
257-258) applied to the transformed document. -/
def transformedCompactText (d : Json) : String :=
  dumpsVal true none 0 (transformDoc d)

/-! ### Orchestration (`main`) and change detection (`git_diff`) -/

/-- The observable state of the git collaborator as `git_diff` queries
it: whether `Repo('.')` raises `InvalidGitRepositoryError`, whether any
other exception interrupts the checks, the untracked files, the staged
and unstaged diff path lists, and the output of `repo.git.diff` (`none`
standing for a raised `GitCommandError`). -/
structure RepoState where
  invalidRepo : Bool
  otherError : Bool
  untrackedFiles : List String
  stagedPaths : List String
  unstagedPaths : List String
  diffCmd : Option String

/-- `git_diff` (`main.py` 82-129): true when the file is untracked or
differs; on `InvalidGitRepositoryError`, any other exception, or a
`GitCommandError` fallthrough, it logs and returns `False`. -/
def git_diff (repo : RepoState) (filename : String) : Bool :=
  if repo.invalidRepo then false
  else if repo.otherError then false
  else if repo.untrackedFiles.contains filename then true
  else if repo.stagedPaths.contains filename || repo.unstagedPaths.contains filename then true
  else
    match repo.diffCmd with
    | some out => ¬ out = ""
    | none => false

/-- The stages `main` can invoke, in pipeline order. -/
inductive Stage where
  | download : Stage
  | save : Stage
  | diffCheck : Stage
  | commitRaw : Stage
  | pushRaw : Stage
  | transformSpec : Stage
  | commitTransformed : Stage
  | pushTransformed : Stage
deriving DecidableEq

/-- Everything `main` observes from its collaborators: the configured
URL, the download result (`none` when `download_file` returns `None`),
whether the local save succeeds, the git state, and the outcomes of the
two commit and two push calls. -/
structure Env where
  apiUrl : Option String
  downloadResult : Option Json
  saveOk : Bool
  repo : RepoState
  commitRawOk : Bool
  pushRawOk : Bool
  commitTransformedOk : Bool
  pushTransformedOk : Bool

/-- Python truthiness of the configured URL (`if not API_URL`): unset or
empty aborts before any stage. -/
def urlOk : Option String → Bool
  | none => false
  | some s => ¬ s = ""

/-- `main` (`main.py` 263-332) as a function from the environment to the
process return code and the ordered list of stages that executed. -/
def mainRun (env : Env) : Int × List Stage :=
  if ¬ urlOk env.apiUrl then (1, [])
  else
    match env.downloadResult with
    | none => (1, [Stage.download])
    | some _ =>
      if ¬ env.saveOk then (1, [Stage.download, Stage.save])
      else
        if git_diff env.repo "openapi.json" then
          if ¬ env.commitRawOk then
            (1, [Stage.download, Stage.save, Stage.diffCheck, Stage.commitRaw])
          else if ¬ env.pushRawOk then
            (1, [Stage.download, Stage.save, Stage.diffCheck, Stage.commitRaw, Stage.pushRaw])
          else if ¬ env.commitTransformedOk then
            (1, [Stage.download, Stage.save, Stage.diffCheck, Stage.commitRaw, Stage.pushRaw,
                 Stage.transformSpec, Stage.commitTransformed])
          else if ¬ env.pushTransformedOk then
            (1, [Stage.download, Stage.save, Stage.diffCheck, Stage.commitRaw, Stage.pushRaw,
                 Stage.transformSpec, Stage.commitTransformed, Stage.pushTransformed])
          else
            (0, [Stage.download, Stage.save, Stage.diffCheck, Stage.commitRaw, Stage.pushRaw,
                 Stage.transformSpec, Stage.commitTransformed, Stage.pushTransformed])
        else (0, [Stage.download, Stage.save, Stage.diffCheck])

/-! ### Association-list lemmas -/

@[simp] theorem lookup_cons_eq (k : String) (v : Json) (l : List (String × Json)) :
    List.lookup k ((k, v) :: l) = some v := by
  simp [List.lookup_cons]

@[simp] theorem lookup_cons_ne (k k2 : String) (v : Json) (l : List (String × Json))
    (h : ¬ k = k2) : List.lookup k ((k2, v) :: l) = List.lookup k l := by
  have hb : (k == k2) = false := beq_eq_false_iff_ne.mpr h
  simp [List.lookup_cons, hb]

theorem nodupKeys_iff (l : List String) : nodupKeys l = true ↔ l.Nodup := by
  induction l with
  | nil => simp [nodupKeys]
  | cons k ks ih => simp [nodupKeys, ih, List.contains]

theorem lookup_setKey_self (l : List (String × Json)) (k : String) (v : Json) :
    List.lookup k (setKey l k v) = some v := by
  induction l with
  | nil => simp [setKey]
  | cons kv rest ih =>
    obtain ⟨k2, v2⟩ := kv
    by_cases h : k2 = k
    · simp [setKey, h]
    · simp [setKey, h, Ne.symm h, ih]

theorem lookup_setKey_ne (l : List (String × Json)) (k k2 : String) (v : Json)
    (h : ¬ k = k2) : List.lookup k (setKey l k2 v) = List.lookup k l := by
  induction l with
  | nil => simp [setKey, h]
  | cons kv rest ih =>
    obtain ⟨k3, v3⟩ := kv
    by_cases h3 : k3 = k2
    · subst h3
      simp [setKey, h]
    · by_cases h4 : k = k3 <;> simp [setKey, h3, h, h4, ih]

theorem lookup_delKey_ne (l : List (String × Json)) (k k2 : String)
    (h : ¬ k = k2) : List.lookup k (delKey l k2) = List.lookup k l := by
  induction l with
  | nil => simp [delKey]
  | cons kv rest ih =>
    obtain ⟨k3, v3⟩ := kv
    by_cases h3 : k3 = k2
    · subst h3
      simp [delKey, h]
    · by_cases h4 : k = k3 <;> simp [delKey, h3, h4, ih]

theorem lookup_eq_none_of_not_mem (l : List (String × Json)) (k : String)
    (h : ¬ k ∈ l.map Prod.fst) : List.lookup k l = none := by
  rw [List.lookup_eq_none_iff]
  intro p hp
  have hmem : p.1 ∈ l.map Prod.fst := List.mem_map_of_mem Prod.fst hp
  simp only [bne_iff_ne, ne_eq]
  intro he
  exact h (he ▸ hmem)

theorem lookup_delKey_self (l : List (String × Json)) (k : String)
    (h : (l.map Prod.fst).Nodup) : List.lookup k (delKey l k) = none := by
  induction l with
  | nil => rfl
  | cons kv rest ih =>
    obtain ⟨k2, v2⟩ := kv
    simp only [List.map_cons, List.nodup_cons] at h
    by_cases h2 : k2 = k
    · subst h2
      simp only [delKey, if_pos rfl]
      exact lookup_eq_none_of_not_mem rest k2 h.1
    · simp only [delKey, if_neg h2]
      rw [lookup_cons_ne k k2 v2 (delKey rest k) (Ne.symm h2)]
      exact ih h.2

theorem keys_setKey_mem (l : List (String × Json)) (k : String) (v : Json)
    (h : k ∈ l.map Prod.fst) : (setKey l k v).map Prod.fst = l.map Prod.fst := by
  induction l with
  | nil => simp at h
  | cons kv rest ih =>
    obtain ⟨k2, v2⟩ := kv
    by_cases h2 : k2 = k
    · simp [setKey, h2]
    · simp only [List.map_cons] at h
      rcases List.mem_cons.mp h with h | h
      · exact absurd h.symm h2
      · simp [setKey, h2, ih h]

theorem keys_setKey_not_mem (l : List (String × Json)) (k : String) (v : Json)
    (h : ¬ k ∈ l.map Prod.fst) : (setKey l k v).map Prod.fst = l.map Prod.fst ++ [k] := by
  induction l with
  | nil => simp [setKey]
  | cons kv rest ih =>
    obtain ⟨k2, v2⟩ := kv
    simp only [List.map_cons, List.mem_cons] at h
    push_neg at h
    have h2 : ¬ k2 = k := fun he => absurd he.symm h.1
    simp [setKey, h2, ih h.2]

theorem nodup_keys_setKey (l : List (String × Json)) (k : String) (v : Json)
    (h : (l.map Prod.fst).Nodup) : ((setKey l k v).map Prod.fst).Nodup := by
  by_cases hm : k ∈ l.map Prod.fst
  · rw [keys_setKey_mem l k v hm]
    exact h
  · rw [keys_setKey_not_mem l k v hm]
    simp [List.nodup_append, h, hm]

theorem setKey_eq_of_lookup (l : List (String × Json)) (k : String) (v : Json)
    (h : List.lookup k l = some v) : setKey l k v = l := by
  induction l with
  | nil => simp at h
  | cons kv rest ih =>
    obtain ⟨k2, v2⟩ := kv
    by_cases h2 : k2 = k
    · subst h2
      simp at h
      simp [setKey, h]
    · rw [lookup_cons_ne k k2 v2 rest (Ne.symm h2)] at h
      simp [setKey, h2, ih h]

theorem setKey_setKey (l : List (String × Json)) (k : String) (v w : Json) :
    setKey (setKey l k v) k w = setKey l k w := by
  induction l with
  | nil => simp [setKey]
  | cons kv rest ih =>
    obtain ⟨k2, v2⟩ := kv
    by_cases h : k2 = k <;> simp [setKey, h, ih]

theorem lookup_mapValues (l : List (String × Json)) (f : Json → Json) (k : String) :
    List.lookup k (l.map (fun kv => (kv.1, f kv.2))) = (List.lookup k l).map f := by
  induction l with
  | nil => simp
  | cons kv rest ih =>
    obtain ⟨k2, v2⟩ := kv
    by_cases h : k = k2
    · subst h
      simp
    · simp only [List.map_cons]
      rw [lookup_cons_ne k k2 (f v2) _ h, lookup_cons_ne k k2 v2 rest h, ih]

theorem keys_mapValues (l : List (String × Json)) (f : Json → Json) :
    (l.map (fun kv => (kv.1, f kv.2))).map Prod.fst = l.map Prod.fst := by
  induction l with
  | nil => simp
  | cons kv rest ih => simp [ih]

/-! ### Path-reordering lemmas -/

theorem lookup_filter_ne (ps : List (String × Json)) (p t : String) (h : ¬ p = t) :
    List.lookup p (ps.filter (fun kv => !(kv.1 == t))) = List.lookup p ps := by
  induction ps with
  | nil => simp
  | cons kv rest ih =>
    obtain ⟨k2, v2⟩ := kv
    by_cases h2 : k2 = t
    · have hdrop : ((k2, v2) :: rest).filter (fun kv => !(kv.1 == t))
          = rest.filter (fun kv => !(kv.1 == t)) := by
        simp [List.filter_cons, h2]
      rw [hdrop, ih]
      subst h2
      rw [lookup_cons_ne p k2 v2 rest h]
    · have hkeep : ((k2, v2) :: rest).filter (fun kv => !(kv.1 == t))
          = (k2, v2) :: rest.filter (fun kv => !(kv.1 == t)) := by
        simp [List.filter_cons, h2]
      rw [hkeep]
      by_cases h3 : p = k2
      · subst h3
        simp
      · rw [lookup_cons_ne p k2 v2 _ h3, lookup_cons_ne p k2 v2 rest h3, ih]

theorem filter_ne_mapValues (l : List (String × Json)) (f : Json → Json) (t : String) :
    (l.map (fun kv => (kv.1, f kv.2))).filter (fun kv => !(kv.1 == t))
      = (l.filter (fun kv => !(kv.1 == t))).map (fun kv => (kv.1, f kv.2)) := by
  induction l with
  | nil => simp
  | cons kv rest ih =>
    obtain ⟨k2, v2⟩ := kv
    by_cases h2 : k2 = t <;> simp [List.filter_cons, h2, ih]

theorem filter_ne_idem (l : List (String × Json)) (t : String) :
    (l.filter (fun kv => !(kv.1 == t))).filter (fun kv => !(kv.1 == t))
      = l.filter (fun kv => !(kv.1 == t)) := by
  induction l with
  | nil => simp
  | cons kv rest ih =>
    obtain ⟨k2, v2⟩ := kv
    by_cases h2 : k2 = t <;> simp [List.filter_cons, h2, ih]

theorem lookup_reorderPaths (ps : List (String × Json)) (p : String) :
    List.lookup p (reorderPaths ps) = List.lookup p ps := by
  cases htok : List.lookup "/token" ps with
  | none => simp [reorderPaths, htok]
  | some v =>
    by_cases hp : p = "/token"
    · subst hp
      simp [reorderPaths, htok]
    · simp only [reorderPaths, htok]
      rw [lookup_cons_ne p "/token" v _ hp, lookup_filter_ne ps p "/token" hp]

theorem reorderPaths_mapValues (l : List (String × Json)) (f : Json → Json) :
    reorderPaths (l.map (fun kv => (kv.1, f kv.2)))
      = (reorderPaths l).map (fun kv => (kv.1, f kv.2)) := by
  cases htok : List.lookup "/token" l with
  | none =>
    have h2 : List.lookup "/token" (l.map (fun kv => (kv.1, f kv.2))) = none := by
      rw [lookup_mapValues, htok]
      rfl
    simp [reorderPaths, htok, h2]
  | some v =>
    have h2 : List.lookup "/token" (l.map (fun kv => (kv.1, f kv.2))) = some (f v) := by
      rw [lookup_mapValues, htok]
      rfl
    simp only [reorderPaths, htok, h2]
    simp [filter_ne_mapValues]

theorem reorderPaths_idem (l : List (String × Json)) :
    reorderPaths (reorderPaths l) = reorderPaths l := by
  cases htok : List.lookup "/token" l with
  | none => simp [reorderPaths, htok]
  | some v =>
    have h1 : reorderPaths l = ("/token", v) :: l.filter (fun kv => !(kv.1 == "/token")) := by
      simp [reorderPaths, htok]
    rw [h1]
    have h2 : List.lookup "/token"
        (("/token", v) :: l.filter (fun kv => !(kv.1 == "/token"))) = some v :=
      lookup_cons_eq "/token" v _
    simp only [reorderPaths, h2]
    simp [List.filter_cons, filter_ne_idem]

theorem reorderPaths_perm (ps : List (String × Json)) (h : (ps.map Prod.fst).Nodup) :
    (reorderPaths ps).Perm ps := by
  induction ps with
  | nil => simp [reorderPaths]
  | cons kv rest ih =>
    obtain ⟨k, v⟩ := kv
    simp only [List.map_cons, List.nodup_cons] at h
    by_cases hk : k = "/token"
    · subst hk
      have hfil : rest.filter (fun kv => !(kv.1 == "/token")) = rest := by
        refine List.filter_eq_self.mpr (fun a ha => ?_)
        simp only [Bool.not_eq_true', beq_eq_false_iff_ne, ne_eq]
        intro he
        exact h.1 (he ▸ List.mem_map_of_mem Prod.fst ha)
      simp [reorderPaths, List.filter_cons, hfil]
    · cases htok : List.lookup "/token" rest with
      | none =>
        have hl : List.lookup "/token" ((k, v) :: rest) = none := by
          rw [lookup_cons_ne "/token" k v rest (fun he => hk he.symm)]
          exact htok
        simp [reorderPaths, hl]
      | some v2 =>
        have hl : List.lookup "/token" ((k, v) :: rest) = some v2 := by
          rw [lookup_cons_ne "/token" k v rest (fun he => hk he.symm)]
          exact htok
        have hr : reorderPaths rest
            = ("/token", v2) :: rest.filter (fun kv => !(kv.1 == "/token")) := by
          simp [reorderPaths, htok]
        have hih := ih h.2
        rw [hr] at hih
        simp only [reorderPaths, hl]
        have hkeep : ((k, v) :: rest).filter (fun kv => !(kv.1 == "/token"))
            = (k, v) :: rest.filter (fun kv => !(kv.1 == "/token")) := by
          simp [List.filter_cons, hk]
        rw [hkeep]
        refine List.Perm.trans (List.Perm.swap (k, v) ("/token", v2) _) ?_
        exact hih.cons (k, v)

/-! ### Well-formedness extraction -/

theorem wfMembers_lookup (l : List (String × Json)) (k : String) (v : Json)
    (hw : wfMembers l = true) (hl : List.lookup k l = some v) : wellFormed v = true := by
  induction l with
  | nil => simp at hl
  | cons kv rest ih =>
    obtain ⟨k2, v2⟩ := kv
    simp only [wfMembers, Bool.and_eq_true] at hw
    by_cases h : k = k2
    · subst h
      rw [lookup_cons_eq] at hl
      cases hl
      simpa using hw.1
    · rw [lookup_cons_ne k k2 v2 rest h] at hl
      exact ih hw.2 hl

theorem wf_obj_nodup (kvs : List (String × Json)) (h : wellFormed (Json.obj kvs) = true) :
    (kvs.map Prod.fst).Nodup := by
  simp only [wellFormed, Bool.and_eq_true] at h
  exact (nodupKeys_iff _).mp h.1

theorem wf_obj_lookup (kvs : List (String × Json)) (k : String) (v : Json)
    (h : wellFormed (Json.obj kvs) = true) (hl : List.lookup k kvs = some v) :
    wellFormed v = true := by
  simp only [wellFormed, Bool.and_eq_true] at h
  exact wfMembers_lookup kvs k v h.2 hl

/-! ### Transform characterization lemmas -/

theorem lookup_reorderStep_ne (root : List (String × Json)) (k : String) (h : ¬ k = "paths") :
    List.lookup k (reorderStep root) = List.lookup k root := by
  cases hp : List.lookup "paths" root with
  | none => simp [reorderStep, hp]
  | some pv =>
    cases pv <;> simp [reorderStep, hp]
    rw [lookup_setKey_ne root k "paths" _ h]

theorem paths_reorderStep_obj (root ps : List (String × Json))
    (hp : List.lookup "paths" root = some (Json.obj ps)) :
    List.lookup "paths" (reorderStep root) = some (Json.obj (reorderPaths ps)) := by
  simp only [reorderStep, hp]
  exact lookup_setKey_self root "paths" _

theorem reorderStep_none (root : List (String × Json))
    (hp : List.lookup "paths" root = none) : reorderStep root = root := by
  simp [reorderStep, hp]

theorem reorderStep_not_obj (root : List (String × Json)) (pv : Json)
    (hp : List.lookup "paths" root = some pv) (hnv : ∀ l, ¬ pv = Json.obj l) :
    reorderStep root = root := by
  cases pv <;> simp [reorderStep, hp]
  exact absurd rfl (hnv _)

theorem getTokenPresent_reorderStep (root : List (String × Json)) :
    getTokenPresent (Json.obj (reorderStep root)) = getTokenPresent (Json.obj root) := by
  simp only [getTokenPresent, getSchemes, rootField,
    lookup_reorderStep_ne root "components" (by decide)]

theorem schemeStep_nofire (r : List (String × Json))
    (h : getTokenPresent (Json.obj r) = false) : schemeStep r = r := by
  cases hc : List.lookup "components" r with
  | none => simp [schemeStep, hc]
  | some cv =>
    cases cv with
    | obj comps =>
      cases hs : List.lookup "securitySchemes" comps with
      | none => simp [schemeStep, hc, hs]
      | some sv =>
        cases sv with
        | obj schemes =>
          have hg : (List.lookup "GetToken" schemes).isSome = false := by
            simpa only [getTokenPresent, getSchemes, rootField, hc, hs] using h
          simp [schemeStep, hc, hs, hg]
        | null => simp [schemeStep, hc, hs]
        | bool b => simp [schemeStep, hc, hs]
        | num n => simp [schemeStep, hc, hs]
        | str s => simp [schemeStep, hc, hs]
        | arr l => simp [schemeStep, hc, hs]
    | null => simp [schemeStep, hc]
    | bool b => simp [schemeStep, hc]
    | num n => simp [schemeStep, hc]
    | str s => simp [schemeStep, hc]
    | arr l => simp [schemeStep, hc]

theorem transformDoc_obj (root : List (String × Json)) :
    transformDoc (Json.obj root) = Json.obj (schemeStep (reorderStep root)) := rfl

theorem transformDoc_nofire (root : List (String × Json))
    (h : getTokenPresent (Json.obj root) = false) :
    transformDoc (Json.obj root) = Json.obj (reorderStep root) := by
  rw [transformDoc_obj, schemeStep_nofire (reorderStep root)
    (by rw [getTokenPresent_reorderStep]; exact h)]

theorem getTokenPresent_true_inv (root : List (String × Json))
    (h : getTokenPresent (Json.obj root) = true) :
    ∃ comps schemes, List.lookup "components" root = some (Json.obj comps) ∧
      List.lookup "securitySchemes" comps = some (Json.obj schemes) ∧
      (List.lookup "GetToken" schemes).isSome = true := by
  cases hc : List.lookup "components" root with
  | none => simp [getTokenPresent, getSchemes, rootField, hc] at h
  | some cv =>
    cases cv with
    | obj comps =>
      cases hs : List.lookup "securitySchemes" comps with
      | none => simp [getTokenPresent, getSchemes, rootField, hc, hs] at h
      | some sv =>
        cases sv with
        | obj schemes =>
          simp only [getTokenPresent, getSchemes, rootField, hc, hs] at h
          exact ⟨comps, schemes, rfl, hs, h⟩
        | null => simp [getTokenPresent, getSchemes, rootField, hc, hs] at h
        | bool b => simp [getTokenPresent, getSchemes, rootField, hc, hs] at h
        | num n => simp [getTokenPresent, getSchemes, rootField, hc, hs] at h
        | str s => simp [getTokenPresent, getSchemes, rootField, hc, hs] at h
        | arr l => simp [getTokenPresent, getSchemes, rootField, hc, hs] at h
    | null => simp [getTokenPresent, getSchemes, rootField, hc] at h
    | bool b => simp [getTokenPresent, getSchemes, rootField, hc] at h
    | num n => simp [getTokenPresent, getSchemes, rootField, hc] at h
    | str s => simp [getTokenPresent, getSchemes, rootField, hc] at h
    | arr l => simp [getTokenPresent, getSchemes, rootField, hc] at h

/-- Abbreviation for the root object after steps 2.1-2.2 (description
merge, `GetToken` removal) but before the per-operation pass. -/
def fireRoot (root comps schemes : List (String × Json)) : List (String × Json) :=
  setKey (reorderStep root) "components"
    (Json.obj (setKey comps "securitySchemes" (Json.obj (delKey (descrStep schemes) "GetToken"))))

theorem lookup_fireRoot_components (root comps schemes : List (String × Json)) :
    List.lookup "components" (fireRoot root comps schemes)
      = some (Json.obj (setKey comps "securitySchemes"
          (Json.obj (delKey (descrStep schemes) "GetToken")))) :=
  lookup_setKey_self _ _ _

theorem lookup_fireRoot_ne (root comps schemes : List (String × Json)) (k : String)
    (h : ¬ k = "components") :
    List.lookup k (fireRoot root comps schemes) = List.lookup k (reorderStep root) :=
  lookup_setKey_ne _ k "components" _ h

theorem transform_fire_core (root comps schemes : List (String × Json))
    (hc : List.lookup "components" root = some (Json.obj comps))
    (hs : List.lookup "securitySchemes" comps = some (Json.obj schemes))
    (hg : (List.lookup "GetToken" schemes).isSome = true) :
    transformDoc (Json.obj root) =
      Json.obj (
        match List.lookup "paths" (fireRoot root comps schemes) with
        | some pv => setKey (fireRoot root comps schemes) "paths" (opsRewrite pv)
        | none => fireRoot root comps schemes) := by
  have hc1 : List.lookup "components" (reorderStep root) = some (Json.obj comps) := by
    rw [lookup_reorderStep_ne root "components" (by decide)]
    exact hc
  rw [transformDoc_obj]
  simp only [schemeStep, hc1, hs, hg, if_true, fireRoot]

theorem getSchemes_fire_result (r2 comps schemes2 : List (String × Json))
    (h : List.lookup "components" r2
        = some (Json.obj (setKey comps "securitySchemes" (Json.obj schemes2)))) :
    getSchemes (Json.obj r2) = some schemes2 := by
  simp only [getSchemes, rootField, h, lookup_setKey_self]

theorem transform_fire_schemes (root comps schemes : List (String × Json))
    (hc : List.lookup "components" root = some (Json.obj comps))
    (hs : List.lookup "securitySchemes" comps = some (Json.obj schemes))
    (hg : (List.lookup "GetToken" schemes).isSome = true) :
    getSchemes (transformDoc (Json.obj root)) = some (delKey (descrStep schemes) "GetToken") := by
  rw [transform_fire_core root comps schemes hc hs hg]
  cases hp : List.lookup "paths" (fireRoot root comps schemes) with
  | none =>
    exact getSchemes_fire_result _ comps _ (lookup_fireRoot_components root comps schemes)
  | some pv =>
    refine getSchemes_fire_result _ comps _ ?_
    rw [lookup_setKey_ne _ "components" "paths" _ (by decide)]
    exact lookup_fireRoot_components root comps schemes

theorem transform_fire_pathItem (root comps schemes : List (String × Json))
    (hc : List.lookup "components" root = some (Json.obj comps))
    (hs : List.lookup "securitySchemes" comps = some (Json.obj schemes))
    (hg : (List.lookup "GetToken" schemes).isSome = true) (p : String) :
    getPathItem (transformDoc (Json.obj root)) p
      = (getPathItem (Json.obj root) p).map pathItemRewrite := by
  rw [transform_fire_core root comps schemes hc hs hg]
  cases hp0 : List.lookup "paths" root with
  | none =>
    have hp2 : List.lookup "paths" (fireRoot root comps schemes) = none := by
      rw [lookup_fireRoot_ne root comps schemes "paths" (by decide),
        reorderStep_none root hp0]
      exact hp0
    simp only [hp2, getPathItem, getPaths, rootField, hp0]
    rfl
  | some pv =>
    cases pv with
    | obj ps =>
      have hp2 : List.lookup "paths" (fireRoot root comps schemes)
          = some (Json.obj (reorderPaths ps)) := by
        rw [lookup_fireRoot_ne root comps schemes "paths" (by decide)]
        exact paths_reorderStep_obj root ps hp0
      have hp3 : List.lookup "paths"
          (setKey (fireRoot root comps schemes) "paths"
            (Json.obj ((reorderPaths ps).map (fun kv => (kv.1, pathItemRewrite kv.2)))))
          = some (Json.obj ((reorderPaths ps).map (fun kv => (kv.1, pathItemRewrite kv.2)))) :=
        lookup_setKey_self _ _ _
      simp only [hp2, opsRewrite, getPathItem, getPaths, rootField, hp3, hp0, Option.some_bind]
      rw [lookup_mapValues, lookup_reorderPaths]
    | null =>
      have hre : reorderStep root = root := reorderStep_not_obj root _ hp0 (by intro l h; cases h)
      have hp2 : List.lookup "paths" (fireRoot root comps schemes) = some Json.null := by
        rw [lookup_fireRoot_ne root comps schemes "paths" (by decide), hre]
        exact hp0
      have hp3 : List.lookup "paths"
          (setKey (fireRoot root comps schemes) "paths" Json.null) = some Json.null :=
        lookup_setKey_self _ _ _
      simp only [hp2, opsRewrite, getPathItem, getPaths, rootField, hp3, hp0]
      rfl
    | bool b =>
      have hre : reorderStep root = root := reorderStep_not_obj root _ hp0 (by intro l h; cases h)
      have hp2 : List.lookup "paths" (fireRoot root comps schemes) = some (Json.bool b) := by
        rw [lookup_fireRoot_ne root comps schemes "paths" (by decide), hre]
        exact hp0
      have hp3 : List.lookup "paths"
          (setKey (fireRoot root comps schemes) "paths" (Json.bool b)) = some (Json.bool b) :=
        lookup_setKey_self _ _ _
      simp only [hp2, opsRewrite, getPathItem, getPaths, rootField, hp3, hp0]
      rfl
    | num n =>
      have hre : reorderStep root = root := reorderStep_not_obj root _ hp0 (by intro l h; cases h)
      have hp2 : List.lookup "paths" (fireRoot root comps schemes) = some (Json.num n) := by
        rw [lookup_fireRoot_ne root comps schemes "paths" (by decide), hre]
        exact hp0
      have hp3 : List.lookup "paths"
          (setKey (fireRoot root comps schemes) "paths" (Json.num n)) = some (Json.num n) :=
        lookup_setKey_self _ _ _
      simp only [hp2, opsRewrite, getPathItem, getPaths, rootField, hp3, hp0]
      rfl
    | str s =>
      have hre : reorderStep root = root := reorderStep_not_obj root _ hp0 (by intro l h; cases h)
      have hp2 : List.lookup "paths" (fireRoot root comps schemes) = some (Json.str s) := by
        rw [lookup_fireRoot_ne root comps schemes "paths" (by decide), hre]
        exact hp0
      have hp3 : List.lookup "paths"
          (setKey (fireRoot root comps schemes) "paths" (Json.str s)) = some (Json.str s) :=
        lookup_setKey_self _ _ _
      simp only [hp2, opsRewrite, getPathItem, getPaths, rootField, hp3, hp0]
      rfl
    | arr l =>
      have hre : reorderStep root = root := reorderStep_not_obj root _ hp0 (by intro l2 h; cases h)
      have hp2 : List.lookup "paths" (fireRoot root comps schemes) = some (Json.arr l) := by
        rw [lookup_fireRoot_ne root comps schemes "paths" (by decide), hre]
        exact hp0
      have hp3 : List.lookup "paths"
          (setKey (fireRoot root comps schemes) "paths" (Json.arr l)) = some (Json.arr l) :=
        lookup_setKey_self _ _ _
      simp only [hp2, opsRewrite, getPathItem, getPaths, rootField, hp3, hp0]
      rfl

theorem transform_fire_operation (root comps schemes : List (String × Json))
    (hc : List.lookup "components" root = some (Json.obj comps))
    (hs : List.lookup "securitySchemes" comps = some (Json.obj schemes))
    (hg : (List.lookup "GetToken" schemes).isSome = true) (p m : String) :
    getOperation (transformDoc (Json.obj root)) p m
      = (getOperation (Json.obj root) p m).map opRewrite := by
  have hpi := transform_fire_pathItem root comps schemes hc hs hg p
  unfold getOperation
  rw [hpi]
  cases hitem : getPathItem (Json.obj root) p with
  | none => rfl
  | some item =>
    cases item with
    | obj methods =>
      show (match pathItemRewrite (Json.obj methods) with
        | Json.obj ms => List.lookup m ms
        | _ => none) = (List.lookup m methods).map opRewrite
      simp only [pathItemRewrite]
      rw [lookup_mapValues]
    | null => rfl
    | bool b => rfl
    | num n => rfl
    | str s => rfl
    | arr l => rfl

theorem transform_frame_root (root : List (String × Json)) (k : String)
    (h1 : ¬ k = "paths") (h2 : ¬ k = "components") :
    rootField (transformDoc (Json.obj root)) k = List.lookup k root := by
  cases hfire : getTokenPresent (Json.obj root) with
  | false =>
    rw [transformDoc_nofire root hfire]
    simp only [rootField]
    exact lookup_reorderStep_ne root k h1
  | true =>
    obtain ⟨comps, schemes, hc, hs, hg⟩ := getTokenPresent_true_inv root hfire
    rw [transform_fire_core root comps schemes hc hs hg]
    cases hp : List.lookup "paths" (fireRoot root comps schemes) with
    | none =>
      simp only [rootField]
      rw [lookup_fireRoot_ne root comps schemes k h2, lookup_reorderStep_ne root k h1]
    | some pv =>
      simp only [rootField]
      rw [lookup_setKey_ne _ k "paths" _ h1, lookup_fireRoot_ne root comps schemes k h2,
        lookup_reorderStep_ne root k h1]

theorem transform_frame_components (root : List (String × Json)) (k : String)
    (hk : ¬ k = "securitySchemes") :
    getComponentField (transformDoc (Json.obj root)) k
      = getComponentField (Json.obj root) k := by
  cases hfire : getTokenPresent (Json.obj root) with
  | false =>
    rw [transformDoc_nofire root hfire]
    simp only [getComponentField, rootField,
      lookup_reorderStep_ne root "components" (by decide)]
  | true =>
    obtain ⟨comps, schemes, hc, hs, hg⟩ := getTokenPresent_true_inv root hfire
    rw [transform_fire_core root comps schemes hc hs hg]
    cases hp : List.lookup "paths" (fireRoot root comps schemes) with
    | none =>
      simp only [getComponentField, rootField, lookup_fireRoot_components root comps schemes, hc]
      exact lookup_setKey_ne comps k "securitySchemes" _ hk
    | some pv =>
      have hcomp2 : List.lookup "components"
          (setKey (fireRoot root comps schemes) "paths" (opsRewrite pv))
          = some (Json.obj (setKey comps "securitySchemes"
              (Json.obj (delKey (descrStep schemes) "GetToken")))) := by
        rw [lookup_setKey_ne _ "components" "paths" _ (by decide)]
        exact lookup_fireRoot_components root comps schemes
      simp only [getComponentField, rootField, hcomp2, hc]
      exact lookup_setKey_ne comps k "securitySchemes" _ hk

/-! ### Per-operation field lemmas -/

theorem lookup_tags_secStep (d : List (String × Json)) :
    List.lookup "tags" (secStep d) = List.lookup "tags" d := by
  cases hsec : List.lookup "security" d with
  | none =>
    simp only [secStep, hsec]
    exact lookup_setKey_ne d "tags" "security" _ (by decide)
  | some sv =>
    cases sv with
    | arr entries =>
      simp only [secStep, hsec]
      exact lookup_setKey_ne d "tags" "security" _ (by decide)
    | null => simp only [secStep, hsec]
    | bool b => simp only [secStep, hsec]
    | num n => simp only [secStep, hsec]
    | str s => simp only [secStep, hsec]
    | obj kvs => simp only [secStep, hsec]

theorem lookup_security_tagsStep (d : List (String × Json)) :
    List.lookup "security" (tagsStep d) = List.lookup "security" d := by
  cases htags : List.lookup "tags" d with
  | none => simp only [tagsStep, htags]
  | some tv =>
    cases tv with
    | arr tags =>
      simp only [tagsStep, htags]
      exact lookup_setKey_ne d "security" "tags" _ (by decide)
    | str s =>
      simp only [tagsStep, htags]
      exact lookup_setKey_ne d "security" "tags" _ (by decide)
    | obj kvs =>
      simp only [tagsStep, htags]
      exact lookup_setKey_ne d "security" "tags" _ (by decide)
    | null => simp only [tagsStep, htags]
    | bool b => simp only [tagsStep, htags]
    | num n => simp only [tagsStep, htags]

theorem opFields_security_arr (d : List (String × Json)) (entries : List Json)
    (h : List.lookup "security" d = some (Json.arr entries)) :
    List.lookup "security" (opFields d)
      = some (Json.arr (entries.map renameSecurityEntry)) := by
  unfold opFields
  rw [lookup_security_tagsStep]
  simp only [secStep, h]
  exact lookup_setKey_self _ _ _

theorem opFields_security_none (d : List (String × Json))
    (h : List.lookup "security" d = none) :
    List.lookup "security" (opFields d)
      = some (Json.arr [Json.obj [("ApiToken", Json.arr [])]]) := by
  unfold opFields
  rw [lookup_security_tagsStep]
  simp only [secStep, h]
  exact lookup_setKey_self _ _ _

theorem opFields_security_isSome (d : List (String × Json)) :
    (List.lookup "security" (opFields d)).isSome = true := by
  cases hsec : List.lookup "security" d with
  | none => rw [opFields_security_none d hsec]; rfl
  | some sv =>
    cases sv with
    | arr entries => rw [opFields_security_arr d entries hsec]; rfl
    | null =>
      unfold opFields
      rw [lookup_security_tagsStep]
      simp only [secStep, hsec]
      rfl
    | bool b =>
      unfold opFields
      rw [lookup_security_tagsStep]
      simp only [secStep, hsec]
      rfl
    | num n =>
      unfold opFields
      rw [lookup_security_tagsStep]
      simp only [secStep, hsec]
      rfl
    | str s =>
      unfold opFields
      rw [lookup_security_tagsStep]
      simp only [secStep, hsec]
      rfl
    | obj kvs =>
      unfold opFields
      rw [lookup_security_tagsStep]
      simp only [secStep, hsec]
      rfl

theorem opFields_tags_arr (d : List (String × Json)) (tags : List Json)
    (h : List.lookup "tags" d = some (Json.arr tags)) :
    List.lookup "tags" (opFields d) = some (Json.arr (tags.map renameTag)) := by
  unfold opFields
  have h1 : List.lookup "tags" (secStep d) = some (Json.arr tags) := by
    rw [lookup_tags_secStep]
    exact h
  simp only [tagsStep, h1]
  exact lookup_setKey_self _ _ _

/-! ### Idempotence lemmas -/

theorem descrStep_cases (schemes : List (String × Json)) :
    descrStep schemes = schemes ∨ ∃ v, descrStep schemes = setKey schemes "ApiKey" v := by
  cases h1 : List.lookup "ApiKey" schemes with
  | none => exact Or.inl (by simp [descrStep, h1])
  | some av =>
    cases av with
    | obj apiKvs =>
      cases h2 : List.lookup "GetToken" schemes with
      | none => exact Or.inl (by simp [descrStep, h1, h2])
      | some gv =>
        cases gv with
        | obj gtKvs =>
          cases h3 : List.lookup "description" gtKvs with
          | none => exact Or.inl (by simp [descrStep, h1, h2, h3])
          | some desc =>
            exact Or.inr ⟨Json.obj (setKey apiKvs "description" desc),
              by simp [descrStep, h1, h2, h3]⟩
        | null => exact Or.inl (by simp [descrStep, h1, h2])
        | bool b => exact Or.inl (by simp [descrStep, h1, h2])
        | num n => exact Or.inl (by simp [descrStep, h1, h2])
        | str s => exact Or.inl (by simp [descrStep, h1, h2])
        | arr l => exact Or.inl (by simp [descrStep, h1, h2])
    | null => exact Or.inl (by simp [descrStep, h1])
    | bool b => exact Or.inl (by simp [descrStep, h1])
    | num n => exact Or.inl (by simp [descrStep, h1])
    | str s => exact Or.inl (by simp [descrStep, h1])
    | arr l => exact Or.inl (by simp [descrStep, h1])

theorem descrStep_keys_nodup (schemes : List (String × Json))
    (h : (schemes.map Prod.fst).Nodup) : ((descrStep schemes).map Prod.fst).Nodup := by
  rcases descrStep_cases schemes with he | ⟨v, he⟩
  · rw [he]
    exact h
  · rw [he]
    exact nodup_keys_setKey _ _ _ h

theorem reorderStep_reorderStep (root : List (String × Json)) :
    reorderStep (reorderStep root) = reorderStep root := by
  cases hp : List.lookup "paths" root with
  | none =>
    rw [reorderStep_none root hp, reorderStep_none root hp]
  | some pv =>
    cases pv with
    | obj ps =>
      have h1 : List.lookup "paths" (reorderStep root) = some (Json.obj (reorderPaths ps)) :=
        paths_reorderStep_obj root ps hp
      generalize hr : reorderStep root = r1 at h1 ⊢
      simp only [reorderStep, h1, reorderPaths_idem]
      exact setKey_eq_of_lookup r1 "paths" _ h1
    | null =>
      have hre : reorderStep root = root := reorderStep_not_obj root _ hp (by intro l h; cases h)
      rw [hre, hre]
    | bool b =>
      have hre : reorderStep root = root := reorderStep_not_obj root _ hp (by intro l h; cases h)
      rw [hre, hre]
    | num n =>
      have hre : reorderStep root = root := reorderStep_not_obj root _ hp (by intro l h; cases h)
      rw [hre, hre]
    | str s =>
      have hre : reorderStep root = root := reorderStep_not_obj root _ hp (by intro l h; cases h)
      rw [hre, hre]
    | arr l =>
      have hre : reorderStep root = root := reorderStep_not_obj root _ hp (by intro l2 h; cases h)
      rw [hre, hre]

theorem opsRewrite_not_obj (pv : Json) (hnv : ∀ l, ¬ pv = Json.obj l) :
    opsRewrite pv = pv := by
  cases pv with
  | obj l => exact absurd rfl (hnv l)
  | null => rfl
  | bool b => rfl
  | num n => rfl
  | str s => rfl
  | arr l => rfl

theorem getTokenPresent_false_of_comps2 (r comps schemes2 : List (String × Json))
    (hcr : List.lookup "components" r
        = some (Json.obj (setKey comps "securitySchemes" (Json.obj schemes2))))
    (hgt : List.lookup "GetToken" schemes2 = none) :
    getTokenPresent (Json.obj r) = false := by
  simp only [getTokenPresent, getSchemes, rootField, hcr, lookup_setKey_self, hgt]
  rfl

theorem transform_steps_idem (root : List (String × Json))
    (hnd : ∀ comps schemes, List.lookup "components" root = some (Json.obj comps) →
      List.lookup "securitySchemes" comps = some (Json.obj schemes) →
      (schemes.map Prod.fst).Nodup) :
    schemeStep (reorderStep (schemeStep (reorderStep root))) = schemeStep (reorderStep root) := by
  cases hfire : getTokenPresent (Json.obj root) with
  | false =>
    have hf1 : getTokenPresent (Json.obj (reorderStep root)) = false := by
      rw [getTokenPresent_reorderStep]
      exact hfire
    rw [schemeStep_nofire _ hf1, reorderStep_reorderStep, schemeStep_nofire _ hf1]
  | true =>
    obtain ⟨comps, schemes, hc, hs, hg⟩ := getTokenPresent_true_inv root hfire
    have hndschemes : (schemes.map Prod.fst).Nodup := hnd comps schemes hc hs
    have hnd2 : List.lookup "GetToken" (delKey (descrStep schemes) "GetToken") = none :=
      lookup_delKey_self _ _ (descrStep_keys_nodup schemes hndschemes)
    have hc1 : List.lookup "components" (reorderStep root) = some (Json.obj comps) := by
      rw [lookup_reorderStep_ne root "components" (by decide)]
      exact hc
    have hfirecore : schemeStep (reorderStep root) =
        (match List.lookup "paths" (fireRoot root comps schemes) with
         | some pv => setKey (fireRoot root comps schemes) "paths" (opsRewrite pv)
         | none => fireRoot root comps schemes) := by
      simp only [schemeStep, hc1, hs, hg, if_true, fireRoot]
    have hGTFR : getTokenPresent (Json.obj (fireRoot root comps schemes)) = false :=
      getTokenPresent_false_of_comps2 _ comps _
        (lookup_fireRoot_components root comps schemes) hnd2
    cases hp0 : List.lookup "paths" root with
    | none =>
      have hpFR : List.lookup "paths" (fireRoot root comps schemes) = none := by
        rw [lookup_fireRoot_ne root comps schemes "paths" (by decide),
          reorderStep_none root hp0]
        exact hp0
      have ht1 : schemeStep (reorderStep root) = fireRoot root comps schemes := by
        rw [hfirecore, hpFR]
      rw [ht1, reorderStep_none _ hpFR, schemeStep_nofire _ hGTFR]
    | some pv =>
      cases pv with
      | obj ps =>
        have hpFR : List.lookup "paths" (fireRoot root comps schemes)
            = some (Json.obj (reorderPaths ps)) := by
          rw [lookup_fireRoot_ne root comps schemes "paths" (by decide)]
          exact paths_reorderStep_obj root ps hp0
        have ht1 : schemeStep (reorderStep root) = setKey (fireRoot root comps schemes) "paths"
            (Json.obj ((reorderPaths ps).map (fun kv => (kv.1, pathItemRewrite kv.2)))) := by
          rw [hfirecore, hpFR]
          rfl
        have hpt1 : List.lookup "paths" (schemeStep (reorderStep root))
            = some (Json.obj ((reorderPaths ps).map (fun kv => (kv.1, pathItemRewrite kv.2)))) := by
          rw [ht1]
          exact lookup_setKey_self _ _ _
        have hcomps2 : List.lookup "components" (schemeStep (reorderStep root))
            = some (Json.obj (setKey comps "securitySchemes"
                (Json.obj (delKey (descrStep schemes) "GetToken")))) := by
          rw [ht1, lookup_setKey_ne _ "components" "paths" _ (by decide)]
          exact lookup_fireRoot_components root comps schemes
        have hGTf : getTokenPresent (Json.obj (schemeStep (reorderStep root))) = false :=
          getTokenPresent_false_of_comps2 _ comps _ hcomps2 hnd2
        have hstepA : reorderStep (schemeStep (reorderStep root))
            = schemeStep (reorderStep root) := by
          generalize hT : schemeStep (reorderStep root) = t1 at hpt1 ⊢
          simp only [reorderStep, hpt1, reorderPaths_mapValues, reorderPaths_idem]
          exact setKey_eq_of_lookup t1 "paths" _ hpt1
        rw [hstepA, schemeStep_nofire _ hGTf]
      | null =>
        have hre : reorderStep root = root :=
          reorderStep_not_obj root _ hp0 (by intro l h2; cases h2)
        have hpFR : List.lookup "paths" (fireRoot root comps schemes) = some Json.null := by
          rw [lookup_fireRoot_ne root comps schemes "paths" (by decide), hre]
          exact hp0
        have ht1 : schemeStep (reorderStep root) = fireRoot root comps schemes := by
          rw [hfirecore, hpFR]
          show setKey (fireRoot root comps schemes) "paths" (opsRewrite Json.null) = _
          rw [opsRewrite_not_obj Json.null (by intro l h2; cases h2)]
          exact setKey_eq_of_lookup _ _ _ hpFR
        have hstepA : reorderStep (fireRoot root comps schemes) = fireRoot root comps schemes :=
          reorderStep_not_obj _ _ hpFR (by intro l h2; cases h2)
        rw [ht1, hstepA, schemeStep_nofire _ hGTFR]
      | bool b =>
        have hre : reorderStep root = root :=
          reorderStep_not_obj root _ hp0 (by intro l h2; cases h2)
        have hpFR : List.lookup "paths" (fireRoot root comps schemes) = some (Json.bool b) := by
          rw [lookup_fireRoot_ne root comps schemes "paths" (by decide), hre]
          exact hp0
        have ht1 : schemeStep (reorderStep root) = fireRoot root comps schemes := by
          rw [hfirecore, hpFR]
          show setKey (fireRoot root comps schemes) "paths" (opsRewrite (Json.bool b)) = _
          rw [opsRewrite_not_obj (Json.bool b) (by intro l h2; cases h2)]
          exact setKey_eq_of_lookup _ _ _ hpFR
        have hstepA : reorderStep (fireRoot root comps schemes) = fireRoot root comps schemes :=
          reorderStep_not_obj _ _ hpFR (by intro l h2; cases h2)
        rw [ht1, hstepA, schemeStep_nofire _ hGTFR]
      | num n =>
        have hre : reorderStep root = root :=
          reorderStep_not_obj root _ hp0 (by intro l h2; cases h2)
        have hpFR : List.lookup "paths" (fireRoot root comps schemes) = some (Json.num n) := by
          rw [lookup_fireRoot_ne root comps schemes "paths" (by decide), hre]
          exact hp0
        have ht1 : schemeStep (reorderStep root) = fireRoot root comps schemes := by
          rw [hfirecore, hpFR]
          show setKey (fireRoot root comps schemes) "paths" (opsRewrite (Json.num n)) = _
          rw [opsRewrite_not_obj (Json.num n) (by intro l h2; cases h2)]
          exact setKey_eq_of_lookup _ _ _ hpFR
        have hstepA : reorderStep (fireRoot root comps schemes) = fireRoot root comps schemes :=
          reorderStep_not_obj _ _ hpFR (by intro l h2; cases h2)
        rw [ht1, hstepA, schemeStep_nofire _ hGTFR]
      | str s =>
        have hre : reorderStep root = root :=
          reorderStep_not_obj root _ hp0 (by intro l h2; cases h2)
        have hpFR : List.lookup "paths" (fireRoot root comps schemes) = some (Json.str s) := by
          rw [lookup_fireRoot_ne root comps schemes "paths" (by decide), hre]
          exact hp0
        have ht1 : schemeStep (reorderStep root) = fireRoot root comps schemes := by
          rw [hfirecore, hpFR]
          show setKey (fireRoot root comps schemes) "paths" (opsRewrite (Json.str s)) = _
          rw [opsRewrite_not_obj (Json.str s) (by intro l h2; cases h2)]
          exact setKey_eq_of_lookup _ _ _ hpFR
        have hstepA : reorderStep (fireRoot root comps schemes) = fireRoot root comps schemes :=
          reorderStep_not_obj _ _ hpFR (by intro l h2; cases h2)
        rw [ht1, hstepA, schemeStep_nofire _ hGTFR]
      | arr l =>
        have hre : reorderStep root = root :=
          reorderStep_not_obj root _ hp0 (by intro l2 h2; cases h2)
        have hpFR : List.lookup "paths" (fireRoot root comps schemes) = some (Json.arr l) := by
          rw [lookup_fireRoot_ne root comps schemes "paths" (by decide), hre]
          exact hp0
        have ht1 : schemeStep (reorderStep root) = fireRoot root comps schemes := by
          rw [hfirecore, hpFR]
          show setKey (fireRoot root comps schemes) "paths" (opsRewrite (Json.arr l)) = _
          rw [opsRewrite_not_obj (Json.arr l) (by intro l2 h2; cases h2)]
          exact setKey_eq_of_lookup _ _ _ hpFR
        have hstepA : reorderStep (fireRoot root comps schemes) = fireRoot root comps schemes :=
          reorderStep_not_obj _ _ hpFR (by intro l2 h2; cases h2)
        rw [ht1, hstepA, schemeStep_nofire _ hGTFR]

/-! ### Key-sorting lemmas -/

theorem charListLe_total (a b : List Char) : charListLe a b = true ∨ charListLe b a = true := by
  induction a generalizing b with
  | nil => exact Or.inl rfl
  | cons x xs ih =>
    cases b with
    | nil => exact Or.inr rfl
    | cons y ys =>
      by_cases h1 : x.toNat < y.toNat
      · exact Or.inl (by simp [charListLe, h1])
      · by_cases h2 : y.toNat < x.toNat
        · exact Or.inr (by simp [charListLe, h2])
        · rcases ih ys with h | h
          · exact Or.inl (by simp [charListLe, h1, h2, h])
          · exact Or.inr (by simp [charListLe, h1, h2, h])

theorem charListLe_trans (a b c : List Char) (h1 : charListLe a b = true)
    (h2 : charListLe b c = true) : charListLe a c = true := by
  induction a generalizing b c with
  | nil => rfl
  | cons x xs ih =>
    cases b with
    | nil => simp [charListLe] at h1
    | cons y ys =>
      cases c with
      | nil => simp [charListLe] at h2
      | cons z zs =>
        by_cases hxy : x.toNat < y.toNat
        · by_cases hyz : y.toNat < z.toNat
          · simp [charListLe, show x.toNat < z.toNat by omega]
          · by_cases hzy : z.toNat < y.toNat
            · simp [charListLe, hyz, hzy] at h2
            · simp [charListLe, show x.toNat < z.toNat by omega]
        · by_cases hyx : y.toNat < x.toNat
          · simp [charListLe, hxy, hyx] at h1
          · by_cases hyz : y.toNat < z.toNat
            · simp [charListLe, show x.toNat < z.toNat by omega]
            · by_cases hzy : z.toNat < y.toNat
              · simp [charListLe, hyz, hzy] at h2
              · have hxz : ¬ x.toNat < z.toNat := by omega
                have hzx : ¬ z.toNat < x.toNat := by omega
                simp only [charListLe, hxy, hyx, if_false, if_neg hxy, if_neg hyx] at h1
                simp only [charListLe, if_neg hyz, if_neg hzy] at h2
                simp only [charListLe, if_neg hxz, if_neg hzx]
                exact ih ys zs h1 h2

theorem strLe_total (a b : String) : strLe a b = true ∨ strLe b a = true :=
  charListLe_total a.data b.data

theorem strLe_trans (a b c : String) (h1 : strLe a b = true) (h2 : strLe b c = true) :
    strLe a c = true :=
  charListLe_trans a.data b.data c.data h1 h2

theorem keysChain_of_pairwise (l : List String) (h : l.Pairwise (fun a b => strLe a b = true)) :
    keysChain l = true := by
  induction l with
  | nil => rfl
  | cons a l ih =>
    cases l with
    | nil => rfl
    | cons b m =>
      rcases List.pairwise_cons.mp h with ⟨hall, htail⟩
      simp only [keysChain, Bool.and_eq_true]
      exact ⟨hall b (by simp), ih htail⟩

theorem mem_insertionSortByKey (a : String × Json) (l : List (String × Json)) :
    a ∈ insertionSortByKey l ↔ a ∈ l :=
  (List.perm_insertionSort _ l).mem_iff

theorem sortMembersRec_eq_map (l : List (String × Json)) :
    sortMembersRec l = l.map (fun kv => (kv.1, sortKeysRec kv.2)) := by
  induction l with
  | nil => rfl
  | cons kv rest ih => simp [sortMembersRec, ih]

theorem sortElemsRec_eq_map (l : List Json) : sortElemsRec l = l.map sortKeysRec := by
  induction l with
  | nil => rfl
  | cons x xs ih => simp [sortElemsRec, ih]

theorem keysSortedMembers_iff (l : List (String × Json)) :
    keysSortedMembers l = true ↔ ∀ kv ∈ l, keysSorted kv.2 = true := by
  induction l with
  | nil => simp [keysSortedMembers]
  | cons kv rest ih => simp [keysSortedMembers, ih]

theorem keysSortedElems_iff (l : List Json) :
    keysSortedElems l = true ↔ ∀ x ∈ l, keysSorted x = true := by
  induction l with
  | nil => simp [keysSortedElems]
  | cons x xs ih => simp [keysSortedElems, ih]

theorem keysSorted_sortKeysRec (j : Json) : keysSorted (sortKeysRec j) = true := by
  induction j using Json.recOnMem with
  | hnull => rfl
  | hbool b => rfl
  | hnum n => rfl
  | hstr s => rfl
  | harr l ih =>
    simp only [sortKeysRec, keysSorted, sortElemsRec_eq_map]
    refine (keysSortedElems_iff _).mpr ?_
    intro x hx
    rcases List.mem_map.mp hx with ⟨y, hy, rfl⟩
    exact ih y hy
  | hobj kvs ih =>
    haveI htot : IsTotal (String × Json) (fun a b => strLe a.1 b.1 = true) :=
      ⟨fun a b => strLe_total a.1 b.1⟩
    haveI htr : IsTrans (String × Json) (fun a b => strLe a.1 b.1 = true) :=
      ⟨fun a b c hab hbc => strLe_trans a.1 b.1 c.1 hab hbc⟩
    simp only [sortKeysRec, keysSorted, Bool.and_eq_true]
    constructor
    · have hsorted : (insertionSortByKey (sortMembersRec kvs)).Pairwise
          (fun a b : String × Json => strLe a.1 b.1 = true) :=
        List.sorted_insertionSort _ _
      refine keysChain_of_pairwise _ ?_
      exact List.Pairwise.map Prod.fst (fun a b hab => hab) hsorted
    · refine (keysSortedMembers_iff _).mpr ?_
      intro kv hkv
      have hmem : kv ∈ sortMembersRec kvs := (mem_insertionSortByKey kv _).mp hkv
      rw [sortMembersRec_eq_map] at hmem
      rcases List.mem_map.mp hmem with ⟨y, hy, rfl⟩
      exact ih y hy

theorem getOpField_fire (root comps schemes : List (String × Json))
    (hc : List.lookup "components" root = some (Json.obj comps))
    (hs : List.lookup "securitySchemes" comps = some (Json.obj schemes))
    (hg : (List.lookup "GetToken" schemes).isSome = true) (p m : String)
    (details : List (String × Json))
    (hop : getOperation (Json.obj root) p m = some (Json.obj details)) (k : String) :
    getOpField (transformDoc (Json.obj root)) p m k = List.lookup k (opFields details) := by
  unfold getOpField
  rw [transform_fire_operation root comps schemes hc hs hg p m, hop]
  rfl

theorem getOpField_some_inv (d : Json) (p m k : String) (v : Json)
    (h : getOpField d p m k = some v) :
    ∃ details, getOperation d p m = some (Json.obj details)
      ∧ List.lookup k details = some v := by
  unfold getOpField at h
  cases hop : getOperation d p m with
  | none => rw [hop] at h; cases h
  | some op =>
    cases op with
    | obj details =>
      rw [hop] at h
      exact ⟨details, rfl, h⟩
    | null => rw [hop] at h; cases h
    | bool b => rw [hop] at h; cases h
    | num n => rw [hop] at h; cases h
    | str s => rw [hop] at h; cases h
    | arr l => rw [hop] at h; cases h

theorem descrStep_eq (schemes apiKvs gtKvs : List (String × Json)) (desc : Json)
    (ha : List.lookup "ApiKey" schemes = some (Json.obj apiKvs))
    (hg : List.lookup "GetToken" schemes = some (Json.obj gtKvs))
    (hd : List.lookup "description" gtKvs = some desc) :
    descrStep schemes = setKey schemes "ApiKey" (Json.obj (setKey apiKvs "description" desc)) := by
  simp only [descrStep, ha, hg, hd]

/-! ### The claims -/

/-- C1: for every document whose `components.securitySchemes` contains a
scheme named `GetToken`, the transform's output scheme mapping has no
`GetToken` entry; if a scheme named `ApiKey` also exists and `GetToken`
has a `description`, `ApiKey`'s description in the output equals
`GetToken`'s description (overwritten unconditionally); and every entry
keyed `GetToken` in any operation's `security` sequence is renamed to
`ApiKey` with its scope list preserved and the sequence order preserved
(the `security` list is rewritten entrywise in place, and a single-entry
`GetToken` mapping becomes the corresponding single-entry `ApiKey`
mapping). -/
theorem C1_scheme_consolidation (root comps schemes : List (String × Json)) (gt : Json)
    (hc : List.lookup "components" root = some (Json.obj comps))
    (hs : List.lookup "securitySchemes" comps = some (Json.obj schemes))
    (hgt : List.lookup "GetToken" schemes = some gt)
    (hnodup : nodupKeys (schemes.map Prod.fst) = true) :
    getSchemeDef (transformDoc (Json.obj root)) "GetToken" = none
    ∧ (∀ apiKvs gtKvs : List (String × Json), ∀ desc : Json,
        List.lookup "ApiKey" schemes = some (Json.obj apiKvs) →
        gt = Json.obj gtKvs → List.lookup "description" gtKvs = some desc →
        getSchemeField (transformDoc (Json.obj root)) "ApiKey" "description" = some desc)
    ∧ (∀ p m : String, ∀ entries : List Json,
        getOpField (Json.obj root) p m "security" = some (Json.arr entries) →
        getOpField (transformDoc (Json.obj root)) p m "security"
          = some (Json.arr (entries.map renameSecurityEntry)))
    ∧ (∀ scopes : Json, renameSecurityEntry (Json.obj [("GetToken", scopes)])
        = Json.obj [("ApiKey", scopes)]) := by
  have hg : (List.lookup "GetToken" schemes).isSome = true := by
    rw [hgt]
    rfl
  have hsch := transform_fire_schemes root comps schemes hc hs hg
  have hnd : ((descrStep schemes).map Prod.fst).Nodup :=
    descrStep_keys_nodup schemes ((nodupKeys_iff _).mp hnodup)
  refine ⟨?_, ?_, ?_, ?_⟩
  · unfold getSchemeDef
    rw [hsch]
    simp only [Option.some_bind]
    exact lookup_delKey_self _ _ hnd
  · intro apiKvs gtKvs desc ha hgt2 hdesc
    subst hgt2
    have hde := descrStep_eq schemes apiKvs gtKvs desc ha hgt hdesc
    have h2 : getSchemeDef (transformDoc (Json.obj root)) "ApiKey"
        = some (Json.obj (setKey apiKvs "description" desc)) := by
      unfold getSchemeDef
      rw [hsch]
      simp only [Option.some_bind]
      rw [lookup_delKey_ne (descrStep schemes) "ApiKey" "GetToken" (by decide), hde]
      exact lookup_setKey_self _ _ _
    unfold getSchemeField
    rw [h2]
    exact lookup_setKey_self _ _ _
  · intro p m entries hsec
    obtain ⟨details, hop, hsec2⟩ := getOpField_some_inv (Json.obj root) p m "security" _ hsec
    rw [getOpField_fire root comps schemes hc hs hg p m details hop "security"]
    exact opFields_security_arr details entries hsec2
  · intro scopes
    rfl

/-- Concrete document for the C1 witness: the spec's scheme-consolidation
test vector. -/
def c1schemes : List (String × Json) :=
  [("ApiKey", Json.obj []), ("GetToken", Json.obj [("description", Json.str "x")])]

/-- Root of the C1 witness document. -/
def c1root : List (String × Json) :=
  [("paths", Json.obj [("/a", Json.obj [("get",
      Json.obj [("security", Json.arr [Json.obj [("GetToken", Json.arr [])]])])])]),
   ("components", Json.obj [("securitySchemes", Json.obj c1schemes)])]

/-- Witness for C1 at a concrete document. -/
theorem C1_scheme_consolidation_witness :
    getSchemeDef (transformDoc (Json.obj c1root)) "GetToken" = none
    ∧ getSchemeField (transformDoc (Json.obj c1root)) "ApiKey" "description"
        = some (Json.str "x")
    ∧ getOpField (transformDoc (Json.obj c1root)) "/a" "get" "security"
        = some (Json.arr [Json.obj [("ApiKey", Json.arr [])]])
    ∧ renameSecurityEntry (Json.obj [("GetToken", Json.arr [])])
        = Json.obj [("ApiKey", Json.arr [])] := by
  have h := C1_scheme_consolidation c1root
    [("securitySchemes", Json.obj c1schemes)] c1schemes
    (Json.obj [("description", Json.str "x")]) rfl rfl rfl (by decide)
  exact ⟨h.1,
    h.2.1 [] [("description", Json.str "x")] (Json.str "x") rfl rfl rfl,
    h.2.2.1 "/a" "get" [Json.obj [("GetToken", Json.arr [])]] rfl,
    h.2.2.2 (Json.arr [])⟩

/-- C4: for every document whose `components.securitySchemes` contains a
`GetToken` scheme, every operation object with no `security` field gains
`security = [{"ApiToken": []}]`, and in every operation's `tags`
sequence each tag equal to `"DenyList"` is replaced by `"Deny List"`
with its position and all other tags preserved (the list is rewritten
elementwise, renaming exactly the `"DenyList"` elements). -/
theorem C4_default_security_and_tag_rename (root comps schemes : List (String × Json))
    (hc : List.lookup "components" root = some (Json.obj comps))
    (hs : List.lookup "securitySchemes" comps = some (Json.obj schemes))
    (hg : (List.lookup "GetToken" schemes).isSome = true) :
    (∀ p m : String, ∀ details : List (String × Json),
        getOperation (Json.obj root) p m = some (Json.obj details) →
        List.lookup "security" details = none →
        getOpField (transformDoc (Json.obj root)) p m "security"
          = some (Json.arr [Json.obj [("ApiToken", Json.arr [])]]))
    ∧ (∀ p m : String, ∀ details : List (String × Json), ∀ tags : List Json,
        getOperation (Json.obj root) p m = some (Json.obj details) →
        List.lookup "tags" details = some (Json.arr tags) →
        getOpField (transformDoc (Json.obj root)) p m "tags"
          = some (Json.arr (tags.map renameTag)))
    ∧ renameTag (Json.str "DenyList") = Json.str "Deny List"
    ∧ (∀ t : Json, ¬ t = Json.str "DenyList" → renameTag t = t) := by
  refine ⟨?_, ?_, ?_, ?_⟩
  · intro p m details hop hsec
    rw [getOpField_fire root comps schemes hc hs hg p m details hop "security"]
    exact opFields_security_none details hsec
  · intro p m details tags hop htags
    rw [getOpField_fire root comps schemes hc hs hg p m details hop "tags"]
    exact opFields_tags_arr details tags htags
  · rfl
  · intro t ht
    simp [renameTag, ht]

/-- Concrete document for the C4 witness. -/
def c4root : List (String × Json) :=
  [("paths", Json.obj [("/d", Json.obj [("get",
      Json.obj [("tags", Json.arr [Json.str "DenyList", Json.str "Public"])])])]),
   ("components", Json.obj [("securitySchemes", Json.obj [("GetToken", Json.obj [])])])]

/-- Witness for C4 at a concrete document. -/
theorem C4_default_security_and_tag_rename_witness :
    getOpField (transformDoc (Json.obj c4root)) "/d" "get" "security"
      = some (Json.arr [Json.obj [("ApiToken", Json.arr [])]])
    ∧ getOpField (transformDoc (Json.obj c4root)) "/d" "get" "tags"
      = some (Json.arr [Json.str "Deny List", Json.str "Public"])
    ∧ renameTag (Json.str "DenyList") = Json.str "Deny List"
    ∧ renameTag (Json.str "Public") = Json.str "Public" := by
  have h := C4_default_security_and_tag_rename c4root
    [("securitySchemes", Json.obj [("GetToken", Json.obj [])])]
    [("GetToken", Json.obj [])] rfl rfl rfl
  exact ⟨h.1 "/d" "get"
      [("tags", Json.arr [Json.str "DenyList", Json.str "Public"])] rfl rfl,
    h.2.1 "/d" "get" [("tags", Json.arr [Json.str "DenyList", Json.str "Public"])]
      [Json.str "DenyList", Json.str "Public"] rfl rfl,
    h.2.2.1,
    h.2.2.2 (Json.str "Public") (by decide)⟩

/-- C10: for every document containing a `GetToken` scheme, any value
nested under a path whose value is not a mapping (for example a
path-level `parameters` list) is skipped by the security/tag rewrite
pass: it is left unchanged and no `security` field is injected into it
(the transform is total, so it does not fail on it). -/
theorem C10_non_mapping_member_skipped (root comps schemes methods : List (String × Json))
    (hc : List.lookup "components" root = some (Json.obj comps))
    (hs : List.lookup "securitySchemes" comps = some (Json.obj schemes))
    (hg : (List.lookup "GetToken" schemes).isSome = true) (p m : String) (v : Json)
    (hpi : getPathItem (Json.obj root) p = some (Json.obj methods))
    (hm : List.lookup m methods = some v)
    (hv : ∀ kvs : List (String × Json), ¬ v = Json.obj kvs) :
    getOperation (transformDoc (Json.obj root)) p m = some v := by
  rw [transform_fire_operation root comps schemes hc hs hg p m]
  have hop : getOperation (Json.obj root) p m = some v := by
    unfold getOperation
    rw [hpi]
    exact hm
  rw [hop]
  cases v with
  | obj kvs => exact absurd rfl (hv kvs)
  | null => rfl
  | bool b => rfl
  | num n => rfl
  | str s => rfl
  | arr l => rfl

/-- Concrete document for the C10 witness: a path item with a
path-level `parameters` list next to an operation. -/
def c10root : List (String × Json) :=
  [("paths", Json.obj [("/a", Json.obj
      [("parameters", Json.arr [Json.str "p"]), ("get", Json.obj [])])]),
   ("components", Json.obj [("securitySchemes", Json.obj [("GetToken", Json.obj [])])])]

/-- Witness for C10 at a concrete document. -/
theorem C10_non_mapping_member_skipped_witness :
    getOperation (transformDoc (Json.obj c10root)) "/a" "parameters"
      = some (Json.arr [Json.str "p"]) :=
  C10_non_mapping_member_skipped c10root
    [("securitySchemes", Json.obj [("GetToken", Json.obj [])])]
    [("GetToken", Json.obj [])]
    [("parameters", Json.arr [Json.str "p"]), ("get", Json.obj [])]
    rfl rfl rfl "/a" "parameters" (Json.arr [Json.str "p"]) rfl rfl
    (by intro kvs h; cases h)

/-- C3 counterexample: the claim "after the transform every operation
object has a non-empty `security` field" fails as stated over all
well-formed documents: when no `GetToken` scheme is present the
security/tag pass never runs (`main.py` 224 guards steps 2.2-2.5), so an
operation without `security` stays without it.  The refuting document is
`{"paths": {"/a": {"get": {}}}}`. -/
theorem C3_counterexample :
    ¬ (∀ (d : Json) (p m : String) (details : List (String × Json)),
        wellFormed d = true →
        getOperation (transformDoc d) p m = some (Json.obj details) →
        ∃ entries, List.lookup "security" details = some (Json.arr entries)
          ∧ ¬ entries = []) := by
  intro h
  obtain ⟨entries, hlook, -⟩ :=
    h (Json.obj [("paths", Json.obj [("/a", Json.obj [("get", Json.obj [])])])])
      "/a" "get" [] (by decide) (by decide)
  exact Option.noConfusion hlook

/-- C3 (amended): for every document whose `components.securitySchemes`
contains a `GetToken` scheme, after the transform every operation object
has a `security` field; an operation whose input had no `security` field
gains the non-empty `[{"ApiToken": []}]`, and one whose input `security`
was a sequence keeps that sequence entrywise (renamed), hence non-empty
whenever the input sequence was non-empty.  Without a `GetToken` scheme
the pass does not run at all. -/
theorem C3_security_after_transform (root comps schemes : List (String × Json))
    (hc : List.lookup "components" root = some (Json.obj comps))
    (hs : List.lookup "securitySchemes" comps = some (Json.obj schemes))
    (hg : (List.lookup "GetToken" schemes).isSome = true) :
    ∀ p m : String, ∀ details : List (String × Json),
      getOperation (Json.obj root) p m = some (Json.obj details) →
      (getOpField (transformDoc (Json.obj root)) p m "security").isSome = true
      ∧ (List.lookup "security" details = none →
          getOpField (transformDoc (Json.obj root)) p m "security"
            = some (Json.arr [Json.obj [("ApiToken", Json.arr [])]]))
      ∧ (∀ entries : List Json, List.lookup "security" details = some (Json.arr entries) →
          getOpField (transformDoc (Json.obj root)) p m "security"
            = some (Json.arr (entries.map renameSecurityEntry))) := by
  intro p m details hop
  rw [getOpField_fire root comps schemes hc hs hg p m details hop "security"]
  exact ⟨opFields_security_isSome details,
    fun hn => opFields_security_none details hn,
    fun entries he => opFields_security_arr details entries he⟩

/-- Concrete document for the C3 witness. -/
def c3root : List (String × Json) :=
  [("paths", Json.obj [("/a", Json.obj [("get", Json.obj [])])]),
   ("components", Json.obj [("securitySchemes", Json.obj [("GetToken", Json.obj [])])])]

/-- Witness for the amended C3 at a concrete document. -/
theorem C3_security_after_transform_witness :
    (getOpField (transformDoc (Json.obj c3root)) "/a" "get" "security").isSome = true
    ∧ getOpField (transformDoc (Json.obj c3root)) "/a" "get" "security"
      = some (Json.arr [Json.obj [("ApiToken", Json.arr [])]]) := by
  have h := C3_security_after_transform c3root
    [("securitySchemes", Json.obj [("GetToken", Json.obj [])])]
    [("GetToken", Json.obj [])] rfl rfl rfl "/a" "get" [] rfl
  exact ⟨h.1, h.2.1 rfl⟩

theorem transform_paths_out (root ps : List (String × Json))
    (hps : List.lookup "paths" root = some (Json.obj ps)) :
    getPaths (transformDoc (Json.obj root)) = some (reorderPaths ps)
    ∨ getPaths (transformDoc (Json.obj root))
        = some ((reorderPaths ps).map (fun kv => (kv.1, pathItemRewrite kv.2))) := by
  cases hfire : getTokenPresent (Json.obj root) with
  | false =>
    left
    rw [transformDoc_nofire root hfire]
    simp only [getPaths, rootField, paths_reorderStep_obj root ps hps]
  | true =>
    right
    obtain ⟨comps, schemes, hc, hs, hg⟩ := getTokenPresent_true_inv root hfire
    rw [transform_fire_core root comps schemes hc hs hg]
    have hpFR : List.lookup "paths" (fireRoot root comps schemes)
        = some (Json.obj (reorderPaths ps)) := by
      rw [lookup_fireRoot_ne root comps schemes "paths" (by decide)]
      exact paths_reorderStep_obj root ps hps
    have hp3 : List.lookup "paths"
        (setKey (fireRoot root comps schemes) "paths"
          (Json.obj ((reorderPaths ps).map (fun kv => (kv.1, pathItemRewrite kv.2)))))
        = some (Json.obj ((reorderPaths ps).map (fun kv => (kv.1, pathItemRewrite kv.2)))) :=
      lookup_setKey_self _ _ _
    simp only [hpFR, opsRewrite, getPaths, rootField, hp3]

/-- C2 (amended): for every document whose `paths` mapping contains
`"/token"`, the output `paths` mapping lists `"/token"` first and every
other key in its original relative order; when the `paths` mapping lacks
`"/token"` its key order is unchanged; and when no `GetToken` scheme is
present in `components.securitySchemes` (so the security/tag pass does
not run) every entry also keeps its original value.  (As the
counterexample shows, value preservation does not hold in general: with
a `GetToken` scheme present the per-operation rewrites change path-entry
values.) -/
theorem C2_token_first (root ps : List (String × Json))
    (hps : List.lookup "paths" root = some (Json.obj ps)) :
    (∀ tv : Json, List.lookup "/token" ps = some tv →
        getPathsKeys (transformDoc (Json.obj root))
          = some ("/token" :: (ps.filter (fun kv => !(kv.1 == "/token"))).map Prod.fst))
    ∧ (List.lookup "/token" ps = none →
        getPathsKeys (transformDoc (Json.obj root)) = some (ps.map Prod.fst))
    ∧ (getTokenPresent (Json.obj root) = false →
        getPaths (transformDoc (Json.obj root)) = some (reorderPaths ps)
        ∧ ∀ p : String, List.lookup p (reorderPaths ps) = List.lookup p ps) := by
  refine ⟨?_, ?_, ?_⟩
  · intro tv htv
    have hkeys : (reorderPaths ps).map Prod.fst
        = "/token" :: (ps.filter (fun kv => !(kv.1 == "/token"))).map Prod.fst := by
      simp [reorderPaths, htv]
    rcases transform_paths_out root ps hps with h | h
    · simp only [getPathsKeys, h, Option.map_some']
      rw [hkeys]
    · simp only [getPathsKeys, h, Option.map_some']
      rw [keys_mapValues, hkeys]
  · intro htv
    have hkeys : reorderPaths ps = ps := by simp [reorderPaths, htv]
    rcases transform_paths_out root ps hps with h | h
    · simp only [getPathsKeys, h, Option.map_some']
      rw [hkeys]
    · simp only [getPathsKeys, h, Option.map_some']
      rw [keys_mapValues, hkeys]
  · intro hfire
    constructor
    · rw [transformDoc_nofire root hfire]
      simp only [getPaths, rootField, paths_reorderStep_obj root ps hps]
    · exact fun p => lookup_reorderPaths ps p

/-- Refuting document for C2 as stated: `/token` present in `paths` and
a `GetToken` scheme present, so the security pass rewrites the `/a`
entry's value. -/
def c2root : List (String × Json) :=
  [("paths", Json.obj [("/token", Json.obj []), ("/a", Json.obj [("get", Json.obj [])])]),
   ("components", Json.obj [("securitySchemes", Json.obj [("GetToken", Json.obj [])])])]

/-- C2 counterexample: the claim's "every other entry ... with its
original value" fails on the full transform: on `c2root` (whose `paths`
contains `"/token"`) the `/a` entry's value changes, because the
security-injection pass rewrites operation objects. -/
theorem C2_counterexample :
    (getPathItem (Json.obj c2root) "/token").isSome = true
    ∧ ¬ getPathItem (transformDoc (Json.obj c2root)) "/a"
        = getPathItem (Json.obj c2root) "/a" := by
  decide

/-- Paths mapping of the C2 witness document (the spec's path-reorder
test vector). -/
def c2wps : List (String × Json) :=
  [("/b", Json.obj []), ("/token", Json.obj []), ("/a", Json.obj [])]

/-- Root of the C2 witness document. -/
def c2wroot : List (String × Json) := [("paths", Json.obj c2wps)]

/-- Witness for the amended C2 at a concrete document. -/
theorem C2_token_first_witness :
    getPathsKeys (transformDoc (Json.obj c2wroot)) = some ["/token", "/b", "/a"]
    ∧ getPaths (transformDoc (Json.obj c2wroot))
        = some [("/token", Json.obj []), ("/b", Json.obj []), ("/a", Json.obj [])]
    ∧ List.lookup "/b" (reorderPaths c2wps) = List.lookup "/b" c2wps := by
  have h := C2_token_first c2wroot c2wps rfl
  exact ⟨h.1 (Json.obj []) rfl, (h.2.2 rfl).1, (h.2.2 rfl).2 "/b"⟩

/-- C9: the transform changes nothing outside its declared targets:
every root-level field other than `paths` and `components` is unchanged,
every member of `components` other than `securitySchemes` is unchanged,
and the path-reordering step is a pure permutation of the `paths`
mapping — it preserves the exact set of path/value pairs (given the
dict distinct-keys invariant) before the security/tag rewrites run. -/
theorem C9_frame_and_permutation (root : List (String × Json)) :
    (∀ k : String, ¬ k = "paths" → ¬ k = "components" →
        rootField (transformDoc (Json.obj root)) k = List.lookup k root)
    ∧ (∀ k : String, ¬ k = "securitySchemes" →
        getComponentField (transformDoc (Json.obj root)) k
          = getComponentField (Json.obj root) k)
    ∧ (∀ ps : List (String × Json), List.lookup "paths" root = some (Json.obj ps) →
        nodupKeys (ps.map Prod.fst) = true → (reorderPaths ps).Perm ps) :=
  ⟨fun k h1 h2 => transform_frame_root root k h1 h2,
   fun k hk => transform_frame_components root k hk,
   fun ps _ hnd => reorderPaths_perm ps ((nodupKeys_iff _).mp hnd)⟩

/-- Concrete document for the C9 witness. -/
def c9root : List (String × Json) :=
  [("openapi", Json.str "3.0"),
   ("paths", Json.obj [("/b", Json.obj []), ("/token", Json.obj [])]),
   ("components", Json.obj [("other", Json.num 1),
      ("securitySchemes", Json.obj [("GetToken", Json.obj [])])])]

/-- Witness for C9 at a concrete document. -/
theorem C9_frame_and_permutation_witness :
    rootField (transformDoc (Json.obj c9root)) "openapi" = some (Json.str "3.0")
    ∧ getComponentField (transformDoc (Json.obj c9root)) "other" = some (Json.num 1)
    ∧ (reorderPaths [("/b", Json.obj []), ("/token", Json.obj [])]).Perm
        [("/b", Json.obj []), ("/token", Json.obj [])] := by
  have h := C9_frame_and_permutation c9root
  refine ⟨?_, ?_, h.2.2 [("/b", Json.obj []), ("/token", Json.obj [])] rfl (by decide)⟩
  · rw [h.1 "openapi" (by decide) (by decide)]
    rfl
  · rw [h.2.1 "other" (by decide)]
    rfl

/-- C6: the Spec Transformer is idempotent: applying it to a document it
has already produced yields an identical document, for every well-formed
input (every object in the tree has pairwise-distinct keys, as any
`json.load`-parsed document does).  In particular `/token` already first
stays first and a `GetToken` scheme already absent stays absent. -/
theorem C6_transform_idempotent (d : Json) (h : wellFormed d = true) :
    transformDoc (transformDoc d) = transformDoc d := by
  cases d with
  | obj root =>
    have hnd : ∀ comps schemes, List.lookup "components" root = some (Json.obj comps) →
        List.lookup "securitySchemes" comps = some (Json.obj schemes) →
        (schemes.map Prod.fst).Nodup := by
      intro comps schemes hc hs
      have h1 : wellFormed (Json.obj comps) = true := wf_obj_lookup root "components" _ h hc
      have h2 : wellFormed (Json.obj schemes) = true :=
        wf_obj_lookup comps "securitySchemes" _ h1 hs
      exact wf_obj_nodup schemes h2
    rw [transformDoc_obj root, transformDoc_obj (schemeStep (reorderStep root)),
      transform_steps_idem root hnd]
  | null => rfl
  | bool b => rfl
  | num n => rfl
  | str s => rfl
  | arr l => rfl

/-- Concrete document for the C6 witness: `/token` and `GetToken` both
present, with a `GetToken` security entry, a `DenyList` tag, and an
operation lacking `security`. -/
def c6doc : Json := Json.obj
  [("paths", Json.obj [("/b", Json.obj [("get", Json.obj
      [("security", Json.arr [Json.obj [("GetToken", Json.arr [])]])])]),
    ("/token", Json.obj [("post", Json.obj [("tags", Json.arr [Json.str "DenyList"])])])]),
   ("components", Json.obj [("securitySchemes", Json.obj
      [("ApiKey", Json.obj []), ("GetToken", Json.obj [("description", Json.str "x")])])])]

/-- Witness for C6 at a concrete document. -/
theorem C6_transform_idempotent_witness :
    transformDoc (transformDoc c6doc) = transformDoc c6doc :=
  C6_transform_idempotent c6doc (by decide)

/-- C7 (amended): the raw snapshot text (`json.dumps(..., indent=4,
sort_keys=True, ensure_ascii=False)`, `main.py` 289) renders the
recursively key-sorted document, whose keys are sorted (code-point
lexicographically, Python's `str` order) at every mapping level; the
transformer's two output texts (`main.py` 254-258) serialize the
transformed document in insertion order instead — `sort_keys` is not
passed there, and the counterexample shows their key order is not
sorted in general (sorting would in fact undo the `/token`-first
reorder). -/
theorem C7_key_sort_policy (d : Json) :
    rawPrettyText d = dumpsVal false (some 4) 0 (sortKeysRec d)
    ∧ keysSorted (sortKeysRec d) = true
    ∧ transformedPrettyText d = dumpsVal true (some 2) 0 (transformDoc d)
    ∧ transformedCompactText d = dumpsVal true none 0 (transformDoc d) :=
  ⟨rfl, keysSorted_sortKeysRec d, rfl, rfl⟩

/-- Refuting document for C7 as stated. -/
def c7doc : Json := Json.obj [("b", Json.num 1), ("a", Json.num 2)]

/-- C7 counterexample: on `{"b": 1, "a": 2}` (which the transform leaves
unchanged) the transformed pretty and compact texts differ from the
key-sorted renderings, so the transformer's outputs do not use the
key-sort policy of the raw serialization. -/
theorem C7_counterexample :
    ¬ transformedPrettyText c7doc
        = dumpsVal true (some 2) 0 (sortKeysRec (transformDoc c7doc))
    ∧ ¬ transformedCompactText c7doc
        = dumpsVal true none 0 (sortKeysRec (transformDoc c7doc))
    ∧ keysSorted (sortKeysRec (transformDoc c7doc)) = true := by
  decide

/-- C5: change-detection gating.  When the detector reports the snapshot
unchanged (`git_diff` returns `False`) the orchestrator exits 0 having
run only download, save and the diff check — no commit or push stage.
When it reports a change (which includes the untracked case) and each
commit/push collaborator call succeeds, both the raw commit/push and the
transformed commit/push stages execute, in order, and the run exits 0.
(A failing collaborator call instead aborts the run at that stage with
exit code 1, per `mainRun`'s early-exit branches.) -/
theorem C5_change_detection_gating (env : Env)
    (hu : urlOk env.apiUrl = true)
    (hd : env.downloadResult.isSome = true)
    (hsave : env.saveOk = true) :
    (git_diff env.repo "openapi.json" = false →
      mainRun env = (0, [Stage.download, Stage.save, Stage.diffCheck])
      ∧ ¬ Stage.commitRaw ∈ (mainRun env).2 ∧ ¬ Stage.pushRaw ∈ (mainRun env).2
      ∧ ¬ Stage.commitTransformed ∈ (mainRun env).2
      ∧ ¬ Stage.pushTransformed ∈ (mainRun env).2)
    ∧ (git_diff env.repo "openapi.json" = true →
      env.commitRawOk = true → env.pushRawOk = true →
      env.commitTransformedOk = true → env.pushTransformedOk = true →
      mainRun env = (0, [Stage.download, Stage.save, Stage.diffCheck, Stage.commitRaw,
        Stage.pushRaw, Stage.transformSpec, Stage.commitTransformed,
        Stage.pushTransformed])) := by
  obtain ⟨data, hd2⟩ := Option.isSome_iff_exists.mp hd
  constructor
  · intro hdiff
    have hmain : mainRun env = (0, [Stage.download, Stage.save, Stage.diffCheck]) := by
      simp [mainRun, hu, hd2, hsave, hdiff]
    refine ⟨hmain, ?_, ?_, ?_, ?_⟩ <;> rw [hmain] <;> decide
  · intro hdiff h1 h2 h3 h4
    simp [mainRun, hu, hd2, hsave, hdiff, h1, h2, h3, h4]

/-- Environment for the C5 witness, no-change case: tracked, clean, and
the `git diff` double check prints nothing. -/
def c5envUnchanged : Env :=
  { apiUrl := some "https://api.example.com/spec"
    downloadResult := some (Json.obj [])
    saveOk := true
    repo := { invalidRepo := false, otherError := false, untrackedFiles := [],
              stagedPaths := [], unstagedPaths := [], diffCmd := some "" }
    commitRawOk := true, pushRawOk := true
    commitTransformedOk := true, pushTransformedOk := true }

/-- Environment for the C5 witness, changed case: the snapshot file is
untracked, which counts as changed. -/
def c5envChanged : Env :=
  { apiUrl := some "https://api.example.com/spec"
    downloadResult := some (Json.obj [])
    saveOk := true
    repo := { invalidRepo := false, otherError := false,
              untrackedFiles := ["openapi.json"],
              stagedPaths := [], unstagedPaths := [], diffCmd := some "" }
    commitRawOk := true, pushRawOk := true
    commitTransformedOk := true, pushTransformedOk := true }

/-- Witness for C5 at two concrete environments. -/
theorem C5_change_detection_gating_witness :
    mainRun c5envUnchanged = (0, [Stage.download, Stage.save, Stage.diffCheck])
    ∧ mainRun c5envChanged = (0, [Stage.download, Stage.save, Stage.diffCheck,
        Stage.commitRaw, Stage.pushRaw, Stage.transformSpec, Stage.commitTransformed,
        Stage.pushTransformed]) :=
  ⟨((C5_change_detection_gating c5envUnchanged (by decide) (by decide)
      (by decide)).1 (by decide)).1,
   (C5_change_detection_gating c5envChanged (by decide) (by decide)
      (by decide)).2 (by decide) rfl rfl rfl rfl⟩

/-- Environment refuting C8 as stated: the working directory is not a
git repository, so change detection fails. -/
def c8env : Env :=
  { apiUrl := some "https://api.example.com/spec"
    downloadResult := some (Json.obj [])
    saveOk := true
    repo := { invalidRepo := true, otherError := false, untrackedFiles := [],
              stagedPaths := [], unstagedPaths := [], diffCmd := none }
    commitRawOk := false, pushRawOk := false
    commitTransformedOk := false, pushTransformedOk := false }

/-- C8 counterexample: when the versioned-storage collaborator fails
during change detection (`Repo('.')` raising `InvalidGitRepositoryError`
because the directory is not a tracked storage target), `git_diff`
catches the exception and returns `False` (`main.py` 124-126), so `main`
takes the no-change branch and exits 0 — not the non-zero outcome the
claim requires.  (No commit, push or transform stage executes, which is
the half of the claim that does hold.) -/
theorem C8_counterexample :
    c8env.repo.invalidRepo = true
    ∧ mainRun c8env = (0, [Stage.download, Stage.save, Stage.diffCheck]) := by
  decide

/-- C8 (amended): if the versioned-storage collaborator fails during
change detection — `Repo('.')` raising `InvalidGitRepositoryError`
(working directory not a tracked storage target) or any other exception
in `git_diff` — the detector reports "no changes", the run exits 0
(success, not non-zero), and no later stage (commit, push, transform)
executes. -/
theorem C8_detection_failure_exits_zero (env : Env)
    (hu : urlOk env.apiUrl = true)
    (hd : env.downloadResult.isSome = true)
    (hsave : env.saveOk = true)
    (hfail : env.repo.invalidRepo = true ∨ env.repo.otherError = true) :
    git_diff env.repo "openapi.json" = false
    ∧ mainRun env = (0, [Stage.download, Stage.save, Stage.diffCheck])
    ∧ ¬ Stage.commitRaw ∈ (mainRun env).2 ∧ ¬ Stage.pushRaw ∈ (mainRun env).2
    ∧ ¬ Stage.transformSpec ∈ (mainRun env).2
    ∧ ¬ Stage.commitTransformed ∈ (mainRun env).2
    ∧ ¬ Stage.pushTransformed ∈ (mainRun env).2 := by
  obtain ⟨data, hd2⟩ := Option.isSome_iff_exists.mp hd
  have hdiff : git_diff env.repo "openapi.json" = false := by
    rcases hfail with hf | hf
    · simp [git_diff, hf]
    · cases hinv : env.repo.invalidRepo <;> simp [git_diff, hinv, hf]
  have hmain : mainRun env = (0, [Stage.download, Stage.save, Stage.diffCheck]) := by
    simp [mainRun, hu, hd2, hsave, hdiff]
  refine ⟨hdiff, hmain, ?_, ?_, ?_, ?_, ?_⟩ <;> rw [hmain] <;> decide

/-- Witness for the amended C8 at a concrete environment. -/
theorem C8_detection_failure_exits_zero_witness :
    git_diff c8env.repo "openapi.json" = false
    ∧ mainRun c8env = (0, [Stage.download, Stage.save, Stage.diffCheck]) := by
  have h := C8_detection_failure_exits_zero c8env (by decide) (by decide) (by decide)
    (Or.inl (by decide))
  exact ⟨h.1, h.2.1⟩
